import Mathlib

/-!
Verification of the P1 smart-meter telegram decoder
(`src/components/p1_mini/p1_mini.cpp`).

The development is a shallow embedding of the C++ source.  Conventions:

* Bytes are modelled as natural numbers; every byte obtained from the
  transport is reduced `% 256` (the C code reads into `char` / `uint8_t`).
  The signedness of `char` is implementation-defined in C++; bytes are
  modelled as unsigned values, which matches the evident intent of the
  code (checksum comparison, frame-length extraction).
* `millis()` timestamps are natural numbers.  The C code subtracts
  `unsigned long` values; with monotone timestamps (the only case that
  arises in the traces considered) truncated natural subtraction agrees
  with the unsigned wrap-around subtraction.
* Reads from the message buffer beyond the write cursor (uninitialized
  memory in C) are modelled as the value 0; no property proved below
  depends on such a read.
* Floating-point values (`double` / `float` in the source) are modelled
  as rational numbers: the decoded values are exact decimals.
-/

namespace P1Mini

/-! ## Character classes and small helpers -/

/-- Decimal digit test, `std::isdigit` on an ASCII byte. -/
def isdigit (c : ℕ) : Bool := 48 ≤ c && c ≤ 57

/-- Whitespace test, `isspace` on an ASCII byte (space and 0x09–0x0d). -/
def isspace (c : ℕ) : Bool := c = 32 || (9 ≤ c && c ≤ 13)

/-- Hexadecimal digit test (`0-9`, `a-f`, `A-F`). -/
def isHexDigit (c : ℕ) : Bool :=
  isdigit c || (97 ≤ c && c ≤ 102) || (65 ≤ c && c ≤ 70)

/-- Value of a hexadecimal digit byte. -/
def hexVal (c : ℕ) : ℕ :=
  if isdigit c then c - 48 else if 97 ≤ c then c - 87 else c - 55

/-- Numeric value of a list of decimal digit bytes (no wrap-around). -/
def digitsVal (l : List ℕ) : ℕ :=
  l.foldl (fun a c => a * 10 + (c - 48)) 0

/-! ## Address codec

The source packs an OBIS-like address into a `uint32_t`:
`OBIS(major, minor, micro) = (major & 0xfff) << 16 | (minor & 0xff) << 8 | (micro & 0xff)`.
-/

/-- Numeric address encoder, `OBIS(uint32_t major, uint32_t minor, uint32_t micro)`. -/
def OBIS (major minor micro : ℕ) : ℕ :=
  ((major &&& 0xfff) <<< 16) ||| ((minor &&& 0xff) <<< 8) ||| (micro &&& 0xff)

/-- The invalid-address sentinel `OBIS_ERROR`. -/
def OBIS_ERROR : ℕ := 0xffffffff

/-- Scan a (possibly empty) run of decimal digits, accumulating the value
into a `uint32_t` accumulator exactly as the C loops
`while (std::isdigit(*C)) x = x * 10 + (*C++ - 48);` do (wrap mod 2^32).
Returns the accumulator and the unconsumed rest of the text. -/
def scanDigits : List ℕ → ℕ → ℕ × List ℕ
  | [], a => (a, [])
  | c :: r, a =>
    if isdigit c then scanDigits r ((a * 10 + (c - 48)) % 2 ^ 32) else (a, c :: r)

/-- Textual address decoder, `OBIS(char const *code)`.  The text is the
byte list of the C string (without the terminating NUL; end of list
plays the role of the terminator, so running out of bytes where the C
code checks a separator corresponds to reading the NUL there). -/
def OBIScode (s : List ℕ) : ℕ :=
  match (scanDigits s 0).2 with
  | [] => OBIS_ERROR
  | c :: r2 =>
    if c = 45 then
      -- full format A-B:C.D.E; the bPart digits are consumed, unused
      match (scanDigits r2 0).2 with
      | [] => OBIS_ERROR
      | c2 :: r4 =>
        if c2 = 58 then
          match (scanDigits r4 0).2 with
          | [] => OBIS_ERROR
          | c3 :: r6 =>
            if c3 = 46 then
              match (scanDigits r6 0).2 with
              | [] => OBIS_ERROR
              | c4 :: r8 =>
                if c4 = 46 then
                  if (scanDigits r8 0).2 = [] then
                    OBIS (scanDigits r4 0).1 (scanDigits r6 0).1
                      (scanDigits r8 0).1
                  else OBIS_ERROR
                else OBIS_ERROR
            else OBIS_ERROR
        else OBIS_ERROR
    else if c = 46 then
      -- simple format C.D.E, the first parsed number is the major part
      match (scanDigits r2 0).2 with
      | [] => OBIS_ERROR
      | c2 :: r4 =>
        if c2 = 46 then
          if (scanDigits r4 0).2 = [] then
            OBIS (scanDigits s 0).1 (scanDigits r2 0).1
              (scanDigits r4 0).1
          else OBIS_ERROR
        else OBIS_ERROR
    else OBIS_ERROR

/-! ## Checksum engines -/

/-- One bit round of the ASCII checksum (reflected polynomial 0xA001). -/
def crcBitA001 (c : ℕ) : ℕ := if c % 2 = 1 then (c / 2) ^^^ 0xA001 else c / 2

/-- One byte round of the ASCII checksum. -/
def crcByteA001 (c b : ℕ) : ℕ :=
  crcBitA001 (crcBitA001 (crcBitA001 (crcBitA001
    (crcBitA001 (crcBitA001 (crcBitA001 (crcBitA001 (c ^^^ (b % 256)))))))))

/-- ASCII-format checksum, `crc16_ccitt_false` in the source: initial
value 0, reflected polynomial 0xA001, over the given bytes. -/
def crc16_ccitt_false (data : List ℕ) : ℕ := data.foldl crcByteA001 0

/-- One bit round of the binary checksum (reflected polynomial 0x8408). -/
def crcBit8408 (c : ℕ) : ℕ := if c % 2 = 1 then (c / 2) ^^^ 0x8408 else c / 2

/-- One byte round of the binary checksum. -/
def crcByte8408 (c b : ℕ) : ℕ :=
  crcBit8408 (crcBit8408 (crcBit8408 (crcBit8408
    (crcBit8408 (crcBit8408 (crcBit8408 (crcBit8408 (c ^^^ (b % 256)))))))))

/-- Binary-format checksum, `crc16_x25` in the source: initial value
0xFFFF, reflected polynomial 0x8408, final XOR 0xFFFF. -/
def crc16_x25 (data : List ℕ) : ℕ :=
  (data.foldl crcByte8408 0xffff) ^^^ 0xffff

/-! ## Machine model

The acquisition state machine `P1Mini`.  Fields that only feed the
periodic timing log (`m_num_message_loops`, `m_num_processing_loops`,
`m_verifying_crc_time`, `m_processing_time`, `m_waiting_time`,
`m_display_time_stats`, `m_time_stats_counter`) and the passthrough
flag `m_secondary_p1` are omitted: they influence nothing observed here. -/

/-- States of the acquisition machine (`enum class states`). -/
inductive MState
  | identifying
  | reading
  | verifyingCrc
  | processingAscii
  | processingBinary
  | waiting
  | errorRecovery
deriving DecidableEq, Repr

/-- Wire formats (`enum class data_formats`). -/
inductive DataFormat
  | unknown
  | ascii
  | binary
deriving DecidableEq, Repr

/-- Observable side effects of one invocation: the five transition
triggers, numeric and text sensor publications, and discard-log flushes
(the flushed hex characters). -/
inductive Event
  | readyToReceive
  | receivingUpdate
  | updateReceived
  | updateProcessed
  | communicationError
  | publish (obis : ℕ) (value : ℚ)
  | publishText (identifier : List ℕ) (line : List ℕ)
  | flushLog (chunk : List ℕ)
deriving DecidableEq, Repr

/-- Static configuration: buffer capacity and minimum period are
constructor arguments of `P1Mini`; the sensor registries are built once
before acquisition starts.  The discard-log capacity (in hex characters)
is declared in the component header, which is not part of `src/`; it is
kept as a parameter here. -/
structure Config where
  bufferSize : ℕ
  minPeriodMs : ℕ
  discardLogSize : ℕ
  sensors : List ℕ
  textSensors : List (List ℕ)
deriving DecidableEq, Repr

/-- Mutable state of a `P1Mini` instance.  `buffer` holds the bytes
written so far, so `buffer.length` is the write cursor
`m_message_buffer_position`.  `crcPosition` is an `int` in the source
(the binary header computation can make it -1), hence `ℤ`. -/
structure Machine where
  state : MState
  dataFormat : DataFormat
  buffer : List ℕ
  crcPosition : ℤ
  startOfData : ℕ
  obisCode : ℕ
  identifyingTime : ℕ
  readingTime : ℕ
  errorRecoveryTime : ℕ
  discardLog : List ℕ
deriving DecidableEq, Repr

/-- Read a buffer byte; indices beyond the write cursor (uninitialized
memory in the C array) read as 0. -/
def rd (buf : List ℕ) (i : ℕ) : ℕ := buf.getD i 0

/-- Hex character (lower case) for a nibble, the `hex_chars` table. -/
def hexChar (n : ℕ) : ℕ := if n < 10 then 48 + n else 87 + n

/-- The two hex characters `AddByteToDiscardLog` appends for one byte. -/
def hexPair (b : ℕ) : List ℕ := [hexChar (b / 16 % 16), hexChar (b % 16)]

/-- Hex dump of a byte list, two characters per byte. -/
def hexDump (l : List ℕ) : List ℕ := (l.map hexPair).flatten

/-- `P1Mini::AddByteToDiscardLog`: append two hex characters; when the
log buffer becomes full, flush it. -/
def addByteToDiscardLog (cfg : Config) (log : List ℕ) (b : ℕ) :
    List ℕ × List Event :=
  let log2 := log ++ hexPair (b % 256)
  if log2.length = cfg.discardLogSize then ([], [Event.flushLog log2])
  else (log2, [])

/-- `P1Mini::FlushDiscardLog`: emit the accumulated hex characters (if
any) and clear the log. -/
def flushDiscardLog (log : List ℕ) : List ℕ × List Event :=
  if log.isEmpty then (log, []) else ([], [Event.flushLog log])

/-- The loop `for (i = 0; i < m_message_buffer_position; ++i)
AddByteToDiscardLog(m_message_buffer[i]);` of the CRC-mismatch branch. -/
def discardBytes (cfg : Config) : List ℕ → List ℕ → List ℕ × List Event
  | log, [] => (log, [])
  | log, b :: rest =>
    let (log2, ev) := addByteToDiscardLog cfg log b
    let (log3, evs) := discardBytes cfg log2 rest
    (log3, ev ++ evs)

/-- `P1Mini::ChangeState`.  Returns the updated machine and the trigger
events fired synchronously during the transition.  Entry to
`IDENTIFYING_MESSAGE` resets the per-telegram fields (write cursor,
checksum boundary, data format); entry to the processing states resets
the data cursor; entry to `WAITING` fires the update-processed triggers
only when not arriving from `ERROR_RECOVERY`. -/
def changeState (m : Machine) (newState : MState) (now : ℕ) :
    Machine × List Event :=
  match newState with
  | MState.identifying =>
    ({ m with state := MState.identifying, identifyingTime := now,
              crcPosition := 0, buffer := [],
              dataFormat := DataFormat.unknown },
     [Event.readyToReceive])
  | MState.reading =>
    ({ m with state := MState.reading, readingTime := now },
     [Event.receivingUpdate])
  | MState.verifyingCrc =>
    ({ m with state := MState.verifyingCrc }, [Event.updateReceived])
  | MState.processingAscii =>
    ({ m with state := MState.processingAscii, startOfData := 0 }, [])
  | MState.processingBinary =>
    ({ m with state := MState.processingBinary, startOfData := 0 }, [])
  | MState.waiting =>
    if m.state = MState.errorRecovery then
      ({ m with state := MState.waiting }, [])
    else
      ({ m with state := MState.waiting }, [Event.updateProcessed])
  | MState.errorRecovery =>
    ({ m with state := MState.errorRecovery, errorRecoveryTime := now },
     [Event.communicationError])

/-! ## CRC verification (`VERIFYING_CRC`) -/

/-- Model of `strtol(p, NULL, 16)` applied to the buffer suffix: skip
whitespace, optional sign, optional `0x`/`0X` prefix, then a maximal run
of hex digits (an empty run yields 0). -/
def strtolHex (l : List ℕ) : ℤ :=
  let l1 := l.dropWhile isspace
  let (sgn, l2) : ℤ × List ℕ :=
    match l1 with
    | 45 :: r => (-1, r)
    | 43 :: r => (1, r)
    | r => (1, r)
  let l3 : List ℕ :=
    match l2 with
    | 48 :: 120 :: r => r
    | 48 :: 88 :: r => r
    | r => r
  let ds := l3.takeWhile isHexDigit
  sgn * (ds.foldl (fun a c => a * 16 + hexVal c) 0 : ℕ)

/-- The `VERIFYING_CRC` case of `P1Mini::loop`: compute the applicable
checksum over the buffered bytes, compare with the transmitted value,
and either proceed to processing or hex-dump the whole buffer into the
discard log, flush it, and enter error recovery. -/
def verifyStep (cfg : Config) (m : Machine) (now : ℕ) :
    Machine × List Event :=
  let cp := m.crcPosition.toNat
  let crcFromMsg : ℤ :=
    if m.dataFormat = DataFormat.ascii then strtolHex (m.buffer.drop cp)
    else if m.dataFormat = DataFormat.binary then
      (rd m.buffer (cp + 1) : ℤ) * 256 + (rd m.buffer cp : ℤ)
    else -1
  let crc : ℕ :=
    if m.dataFormat = DataFormat.ascii then
      crc16_ccitt_false (m.buffer.take cp)
    else if m.dataFormat = DataFormat.binary then
      crc16_x25 ((m.buffer.drop 1).take (cp - 1))
    else 0
  if (crc : ℤ) = crcFromMsg then
    changeState m
      (if m.dataFormat = DataFormat.binary then MState.processingBinary
       else MState.processingAscii) now
  else
    let (log2, evs) := discardBytes cfg m.discardLog m.buffer
    let (log3, evsF) := flushDiscardLog log2
    let (m2, evs2) :=
      changeState { m with discardLog := log3 } MState.errorRecovery now
    (m2, evs ++ evsF ++ evs2)

/-! ## ASCII record processing (`PROCESSING_ASCII`)

The C code walks the buffer as a C string, temporarily NUL-terminating
each record to run `sscanf`/`strtod` on it and restoring the byte
afterwards; the net effect on the buffer is nil, so records are modelled
as pure slices of the buffer. -/

/-- Model of a `%d` conversion: skip whitespace, optional sign, at least
one decimal digit.  Returns the value and the unconsumed rest.
Accumulation is kept exact (the records decoded here hold values far
below `INT_MAX`, where `int` accumulation is exact too). -/
def scanIntFrom (l : List ℕ) : Option (ℤ × List ℕ) :=
  let l1 := l.dropWhile isspace
  let (sgn, l2) : ℤ × List ℕ :=
    match l1 with
    | 45 :: r => (-1, r)
    | 43 :: r => (1, r)
    | r => (1, r)
  let ds := l2.takeWhile isdigit
  if ds.isEmpty then none
  else some (sgn * (digitsVal ds : ℤ), l2.drop ds.length)

/-- Model of one literal (non-whitespace) character of an `sscanf`
format: the next input byte must match it exactly. -/
def scanLit (c : ℕ) (l : List ℕ) : Option (List ℕ) :=
  match l with
  | d :: r => if d = c then some r else none
  | [] => none

/-- The address part of `sscanf(s, "%d-%d:%d.%d.%d(", ...) == 5`: all
five `%d` conversions succeed with the interleaved literals matched (the
trailing literal `(` is after the last conversion, so it does not affect
the count).  Returns (major, minor, micro); the `A-B:` group is parsed
but not retained. -/
def scanObisFull (l : List ℕ) : Option (ℤ × ℤ × ℤ) :=
  (scanIntFrom l).bind fun p1 =>
  (scanLit 45 p1.2).bind fun r2 =>
  (scanIntFrom r2).bind fun p2 =>
  (scanLit 58 p2.2).bind fun r3 =>
  (scanIntFrom r3).bind fun p3 =>
  (scanLit 46 p3.2).bind fun r4 =>
  (scanIntFrom r4).bind fun p4 =>
  (scanLit 46 p4.2).bind fun r5 =>
  (scanIntFrom r5).map fun p5 => (p3.1, p4.1, p5.1)

/-- Model of `strtod`: optional whitespace and sign, a decimal mantissa
with at least one digit on either side of an optional point, and an
optional exponent part.  Returns the exact rational value (built with
`mkRat` from the decimal digits) and the number of consumed bytes
(positive whenever the parse succeeds).  Hexadecimal, infinity and NaN
forms are not modelled; no input below uses them. -/
def strtodParse (l : List ℕ) : Option (ℚ × ℕ) :=
  let ws := l.takeWhile isspace
  let l1 := l.drop ws.length
  let (neg, sgnLen, l2) : Bool × ℕ × List ℕ :=
    match l1 with
    | 45 :: r => (true, 1, r)
    | 43 :: r => (false, 1, r)
    | r => (false, 0, r)
  let ip := l2.takeWhile isdigit
  let l3 := l2.drop ip.length
  let (fp, fpLen, l4) : List ℕ × ℕ × List ℕ :=
    match l3 with
    | 46 :: r =>
      let f := r.takeWhile isdigit
      (f, 1 + f.length, r.drop f.length)
    | r => ([], 0, r)
  if ip.isEmpty && fp.isEmpty then none
  else
    let mantNum : ℤ :=
      (if neg then -1 else 1) *
        (digitsVal ip * 10 ^ fp.length + digitsVal fp : ℕ)
    let mantDen : ℕ := 10 ^ fp.length
    let (expVal, expLen) : ℤ × ℕ :=
      match l4 with
      | 101 :: r => strtodExpPart r
      | 69 :: r => strtodExpPart r
      | _ => (0, 0)
    let v : ℚ :=
      if 0 ≤ expVal then mkRat (mantNum * 10 ^ expVal.toNat) mantDen
      else mkRat mantNum (mantDen * 10 ^ (-expVal).toNat)
    some (v, ws.length + sgnLen + ip.length + fpLen + expLen)
where
  /-- Exponent part after the `e`: optional sign then digits; when no
  digit follows, the `e` itself is not consumed. -/
  strtodExpPart (r : List ℕ) : ℤ × ℕ :=
    let (esgn, esgnLen, r2) : Bool × ℕ × List ℕ :=
      match r with
      | 45 :: q => (true, 1, q)
      | 43 :: q => (false, 1, q)
      | q => (false, 0, q)
    let ed := r2.takeWhile isdigit
    if ed.isEmpty then (0, 0)
    else
      ((if esgn then -1 else 1) * (digitsVal ed : ℤ),
       1 + esgnLen + ed.length)

/-- The legacy full form, `sscanf(s, "1-0:%d.%d.%d(%lf", ...) == 4`. -/
def scanLegacyFull (l : List ℕ) : Option (ℤ × ℤ × ℤ × ℚ) :=
  (scanLit 49 l).bind fun r1 =>
  (scanLit 45 r1).bind fun r2 =>
  (scanLit 48 r2).bind fun r3 =>
  (scanLit 58 r3).bind fun r4 =>
  (scanIntFrom r4).bind fun p1 =>
  (scanLit 46 p1.2).bind fun r5 =>
  (scanIntFrom r5).bind fun p2 =>
  (scanLit 46 p2.2).bind fun r6 =>
  (scanIntFrom r6).bind fun p3 =>
  (scanLit 40 p3.2).bind fun r7 =>
  (strtodParse r7).map fun q => (p1.1, p2.1, p3.1, q.1)

/-- The simple form, `sscanf(s, "%d.%d.%d(%lf", ...) == 4`. -/
def scanSimple (l : List ℕ) : Option (ℤ × ℤ × ℤ × ℚ) :=
  (scanIntFrom l).bind fun p1 =>
  (scanLit 46 p1.2).bind fun r2 =>
  (scanIntFrom r2).bind fun p2 =>
  (scanLit 46 p2.2).bind fun r3 =>
  (scanIntFrom r3).bind fun p3 =>
  (scanLit 40 p3.2).bind fun r4 =>
  (strtodParse r4).map fun q => (p1.1, p2.1, p3.1, q.1)

/-- Model of `strchr`: the suffix of the list starting at the first
occurrence of the byte, or `none` when absent. -/
def dropToChar (c : ℕ) (l : List ℕ) : Option (List ℕ) :=
  let r := l.dropWhile (fun d => d ≠ c)
  if r.isEmpty then none else some r

/-- The timestamp heuristic: a parenthesized token longer than 10
characters ending in `W` or `S`, or longer than 10 consisting only of
digits, is skipped as a timestamp. -/
def looksLikeTimestamp (content : List ℕ) : Bool :=
  (content.length > 10
     && (content.getLast? = some 87 || content.getLast? = some 83))
  || (content.length > 10 && content.all isdigit)

/-- The leading-zero suppression applied before `strtod`:
`while (*p == 48 && *(p+1) != 46 && *(p+1) != 0) ++p;`. -/
def skipLeadingZeros : List ℕ → List ℕ
  | 48 :: c :: r => if c ≠ 46 then skipLeadingZeros (c :: r) else 48 :: c :: r
  | l => l

/-- The parenthesized-group scan of the full OBIS branch: starting at
the first `(` of the record, walk `(...)` groups, skip timestamp-shaped
contents, and return the first value `strtod` accepts (after leading
zeros are suppressed).  The fuel argument bounds the walk; it is called
with more fuel than groups. -/
def extractValue : ℕ → List ℕ → Option ℚ
  | 0, _ => none
  | fuel + 1, cur =>
    match dropToChar 40 cur with
    | none => none
    | some atParen =>
      let inner := atParen.drop 1
      match dropToChar 41 inner with
      | none => none
      | some atClose =>
        let content := inner.takeWhile (fun d => d ≠ 41)
        let rest := atClose.drop 1
        if looksLikeTimestamp content then extractValue fuel rest
        else
          match strtodParse (skipLeadingZeros content) with
          | some (v, n) =>
            if 0 < n then some v else extractValue fuel rest
          | none => extractValue fuel rest

/-- Conversion of a C `int` value to `uint32_t`, as in the call
`OBIS(major, minor, micro)` on `int` arguments (-1 becomes 2^32-1). -/
def toUint32 (i : ℤ) : ℕ := (i % 2 ^ 32).toNat

/-- Record classification: `some (key, value)` when one of the three
`sscanf` forms marks the record as a sensor line, with the encoded
address key and the parsed value (-1 when the full form finds no
acceptable parenthesized value, matching `double value{ -1.0 }`). -/
def parseAsciiLine (line : List ℕ) : Option (ℕ × ℚ) :=
  match scanObisFull line with
  | some (ma, mi, mc) =>
    let v : ℚ :=
      match dropToChar 40 line with
      | none => mkRat (-1) 1
      | some atParen =>
        (extractValue (line.length + 1) atParen).getD (mkRat (-1) 1)
    some (OBIS (toUint32 ma) (toUint32 mi) (toUint32 mc), v)
  | none =>
    match scanLegacyFull line with
    | some (ma, mi, mc, v) =>
      some (OBIS (toUint32 ma) (toUint32 mi) (toUint32 mc), v)
    | none =>
      match scanSimple line with
      | some (ma, mi, mc, v) =>
        some (OBIS (toUint32 ma) (toUint32 mi) (toUint32 mc), v)
      | none => none

/-- Text-sensor fallback: the first registered identifier that is a
prefix of the record text receives the raw record. -/
def textSensorEvents (cfg : Config) (line : List ℕ) : List Event :=
  match cfg.textSensors.find? (fun ident => ident.isPrefixOf line) with
  | some ident => [Event.publishText ident line]
  | none => []

/-- Dispatch of one nonempty record: a sensor line whose address has a
registered numeric binding publishes there; otherwise the text sensors
are tried; an unmatched record is only logged. -/
def dispatchLine (cfg : Config) (line : List ℕ) : List Event :=
  if line.isEmpty then []
  else
    match parseAsciiLine line with
    | some (key, v) =>
      if key ∈ cfg.sensors then [Event.publish key v]
      else textSensorEvents cfg line
    | none => textSensorEvents cfg line

/-- The scan `while (*p == 10 || *p == 13) ++p;` over the buffer. -/
def skipNewlines (buf : List ℕ) : ℕ → ℕ → ℕ
  | 0, i => i
  | fuel + 1, i =>
    if rd buf i = 10 || rd buf i = 13 then skipNewlines buf fuel (i + 1)
    else i

/-- The scan for the end of a record: the first byte that is a newline,
carriage return, NUL (end of written data reads as 0) or `!`. -/
def scanEol (buf : List ℕ) : ℕ → ℕ → ℕ
  | 0, i => i
  | fuel + 1, i =>
    let c := rd buf i
    if c = 10 || c = 13 || c = 0 || c = 33 then i
    else scanEol buf fuel (i + 1)

/-- The `PROCESSING_ASCII` record loop.  `millis()` is modelled as
constant within one invocation, so the 25 ms time box is represented by
the fuel argument: exhausted fuel corresponds to the time-boxed break
(partial progress retained); the caller passes enough fuel to finish. -/
def processAscii (cfg : Config) (now : ℕ) : ℕ → Machine → Machine × List Event
  | 0, m => (m, [])
  | fuel + 1, m =>
    let s := skipNewlines m.buffer (m.buffer.length + 1) m.startOfData
    let e := scanEol m.buffer (m.buffer.length + 1) s
    let line := (m.buffer.drop s).take (e - s)
    let evs := dispatchLine cfg line
    let eolChar := rd m.buffer e
    if eolChar = 0 || eolChar = 33 then
      let (m2, evs2) := changeState m MState.waiting now
      (m2, evs ++ evs2)
    else
      let (m3, evs3) :=
        processAscii cfg now fuel { m with startOfData := e + 1 }
      (m3, evs ++ evs3)

/-! ## Binary TLV processing (`PROCESSING_BINARY`) -/

/-- The raw value of an unsigned double-long tag: four data bytes after
the tag byte, big-endian. -/
def u32of (buf : List ℕ) (s : ℕ) : ℕ :=
  (rd buf (s + 1)) <<< 24 ||| (rd buf (s + 2)) <<< 16 |||
  (rd buf (s + 3)) <<< 8 ||| rd buf (s + 4)

/-- The raw value of an unsigned long tag: two data bytes, big-endian. -/
def u16of (buf : List ℕ) (s : ℕ) : ℕ :=
  (rd buf (s + 1)) <<< 8 ||| rd buf (s + 2)

/-- The raw value of a signed long tag: two data bytes, big-endian,
assigned to an `int16_t` (sign extension). -/
def i16of (buf : List ℕ) (s : ℕ) : ℤ :=
  let v := u16of buf s
  if v < 2 ^ 15 then (v : ℤ) else (v : ℤ) - 2 ^ 16

/-- The tag bytes the TLV walk recognizes. -/
def supportedTags : List ℕ :=
  [0x00, 0x01, 0x02, 0x06, 0x09, 0x0a, 0x0c, 0x0f, 0x10, 0x12, 0x16]

/-- The tag-length-value walk of `PROCESSING_BINARY`.  As with the ASCII
loop, the fuel stands in for the 25 ms time box; the caller passes
enough fuel to reach the checksum boundary.  An unrecognized tag byte
aborts into error recovery. -/
def tlvLoop (cfg : Config) (now : ℕ) : ℕ → Machine → Machine × List Event
  | 0, m => (m, [])
  | fuel + 1, m =>
    let s := m.startOfData
    let t := rd m.buffer s
    let res : Option (ℕ × ℕ × List Event) :=
      if t = 0x00 then some (s + 1, m.obisCode, [])
      else if t = 0x01 then some (s + 2, m.obisCode, [])
      else if t = 0x02 then some (s + 2, m.obisCode, [])
      else if t = 0x06 then
        some (s + 5, m.obisCode,
          if m.obisCode ∈ cfg.sensors then
            [Event.publish m.obisCode (mkRat (u32of m.buffer s) 1000)]
          else [])
      else if t = 0x09 then
        let ob :=
          if rd m.buffer (s + 1) = 6 then
            OBIS (rd m.buffer (s + 4)) (rd m.buffer (s + 5))
              (rd m.buffer (s + 6))
          else m.obisCode
        some (s + 2 + rd m.buffer (s + 1), ob, [])
      else if t = 0x0a then some (s + 2 + rd m.buffer (s + 1), m.obisCode, [])
      else if t = 0x0c then some (s + 13, m.obisCode, [])
      else if t = 0x0f then some (s + 2, m.obisCode, [])
      else if t = 0x10 then
        some (s + 3, m.obisCode,
          if m.obisCode ∈ cfg.sensors then
            [Event.publish m.obisCode (mkRat (u16of m.buffer s) 10)]
          else [])
      else if t = 0x12 then
        some (s + 3, m.obisCode,
          if m.obisCode ∈ cfg.sensors then
            [Event.publish m.obisCode (mkRat (i16of m.buffer s) 10)]
          else [])
      else if t = 0x16 then some (s + 2, m.obisCode, [])
      else none
    match res with
    | none => changeState m MState.errorRecovery now
    | some (s2, ob2, evs) =>
      let m2 := { m with startOfData := s2, obisCode := ob2 }
      if (s2 : ℤ) ≥ m.crcPosition then
        let (m3, evs3) := changeState m2 MState.waiting now
        (m3, evs ++ evs3)
      else
        let (m4, evs4) := tlvLoop cfg now fuel m2
        (m4, evs ++ evs4)

/-- The scan for the control byte 0x13:
`while (*p != 0x13 && p <= buffer + crc_position) ++p;`. -/
def scanControlByte (buf : List ℕ) (crcPos : ℤ) : ℕ → ℕ → ℕ
  | 0, i => i
  | fuel + 1, i =>
    if rd buf i ≠ 0x13 && (i : ℤ) ≤ crcPos then
      scanControlByte buf crcPos fuel (i + 1)
    else i

/-- The `PROCESSING_BINARY` case of `P1Mini::loop`: on first entry
(cursor still at the buffer start) skip the 3-byte frame-type header,
scan forward to the control byte, skip 6 more bytes, then walk the TLV
sequence. -/
def processBinary (cfg : Config) (now : ℕ) (m : Machine) :
    Machine × List Event :=
  if m.startOfData = 0 then
    let i := scanControlByte m.buffer m.crcPosition (m.crcPosition.toNat + 2) 3
    if (i : ℤ) > m.crcPosition then
      changeState { m with startOfData := i } MState.errorRecovery now
    else
      tlvLoop cfg now (m.crcPosition.toNat + 2) { m with startOfData := i + 6 }
  else
    tlvLoop cfg now (m.crcPosition.toNat + 2) m

/-! ## Reading, identification, waiting, error recovery -/

/-- The checksum-boundary bookkeeping of one `READING_MESSAGE`
iteration, after the byte `b` has been written (`buf2` is the buffer
including it): in ASCII format a `!` sets the boundary to the current
write position; in binary format the third byte completes the header,
whose checked top bits and length field yield the boundary (`none`
denotes the malformed-header error). -/
def crcTrack (fmt : DataFormat) (buf2 : List ℕ) (b : ℕ) (old : ℤ) :
    Option ℤ :=
  if fmt = DataFormat.ascii ∧ b = 33 then some (buf2.length : ℤ)
  else if fmt = DataFormat.binary ∧ buf2.length = 3 then
    if (0xe0 &&& rd buf2 1) ≠ 0xa0 then none
    else some ((((0x1f &&& rd buf2 1) <<< 8) + rd buf2 2 : ℤ) - 1)
  else some old

/-- The end-of-frame test of one `READING_MESSAGE` iteration: once the
boundary is known and passed, ASCII ends at a newline and binary ends
when `boundary + 3` bytes are written, the last of which must be the
trailing flag. -/
def frameEnd (fmt : DataFormat) (b : ℕ) (pos : ℕ) (cp : ℤ) :
    Option MState :=
  if 0 < cp ∧ (pos : ℤ) > cp then
    if fmt = DataFormat.ascii ∧ b = 10 then some MState.verifyingCrc
    else if fmt = DataFormat.binary ∧ (pos : ℤ) = cp + 3 then
      some (if b ≠ 0x7e then MState.errorRecovery else MState.verifyingCrc)
    else none
  else none

/-- The `READING_MESSAGE` byte loop: consume all available bytes one at
a time, tracking the checksum boundary, frame completion, buffer
overflow, and — when the transport runs dry — the 10 s frame timeout. -/
def readLoop (cfg : Config) (now : ℕ) :
    List ℕ → Machine → Machine × List ℕ × List Event
  | [], m =>
    if 10000 < now - m.readingTime && m.readingTime < now then
      let (m2, evs) := changeState m MState.errorRecovery now
      (m2, [], evs)
    else (m, [], [])
  | b0 :: rest, m =>
    let b := b0 % 256
    let buf2 := m.buffer ++ [b]
    let pos := buf2.length
    let m1 := { m with buffer := buf2 }
    match crcTrack m.dataFormat buf2 b m.crcPosition with
    | none =>
      let (m2, evs) := changeState m1 MState.errorRecovery now
      (m2, rest, evs)
    | some cp =>
      let m2 := { m1 with crcPosition := cp }
      match frameEnd m.dataFormat b pos cp with
      | some st =>
        let (m3, evs) := changeState m2 st now
        (m3, rest, evs)
      | none =>
        if pos = cfg.bufferSize then
          let (m3, evs) := changeState m2 MState.errorRecovery now
          (m3, rest, evs)
        else readLoop cfg now rest m2

/-- The `IDENTIFYING_MESSAGE` case: wait for the first byte (60 s idle
timeout), select the wire format from it, store it, and fall through
into `READING_MESSAGE` within the same invocation. -/
def identifyStep (cfg : Config) (now : ℕ) (m : Machine) (input : List ℕ) :
    Machine × List ℕ × List Event :=
  match input with
  | [] =>
    if 60000 < now - m.identifyingTime then
      let (m2, evs) := changeState m MState.errorRecovery now
      (m2, [], evs)
    else (m, [], [])
  | b0 :: rest =>
    let b := b0 % 256
    if b = 47 then
      let m1 := { m with dataFormat := DataFormat.ascii,
                         buffer := m.buffer ++ [b] }
      let (m2, evs) := changeState m1 MState.reading now
      let (m3, rest2, evs2) := readLoop cfg now rest m2
      (m3, rest2, evs ++ evs2)
    else if b = 0x7e then
      let m1 := { m with dataFormat := DataFormat.binary,
                         buffer := m.buffer ++ [b] }
      let (m2, evs) := changeState m1 MState.reading now
      let (m3, rest2, evs2) := readLoop cfg now rest m2
      (m3, rest2, evs ++ evs2)
    else
      let (m2, evs) := changeState m MState.errorRecovery now
      (m2, rest, evs)

/-- The `WAITING` case: go back to identification once the minimum
period since the last identification has elapsed (or when no minimum is
configured); data arriving while still inside the minimum period is a
flow-control violation.  The phase-duration logging is diagnostic only
and not modelled. -/
def waitingStep (cfg : Config) (now : ℕ) (m : Machine) (input : List ℕ) :
    Machine × List ℕ × List Event :=
  if cfg.minPeriodMs = 0 || cfg.minPeriodMs < now - m.identifyingTime then
    let (m2, evs) := changeState m MState.identifying now
    (m2, input, evs)
  else if !input.isEmpty then
    let (m2, evs) := changeState m MState.errorRecovery now
    (m2, input, evs)
  else (m, input, [])

/-- The drain loop of `ERROR_RECOVERY`:
`int max_bytes_to_discard{ 200 }; do { AddByteToDiscardLog(GetByte()); }
while (available() && max_bytes_to_discard-- != 0);` — the counter is
tested against 0 and then decremented, so one invocation consumes up to
201 bytes. -/
def drainLoop (cfg : Config) :
    List ℕ → ℕ → List ℕ → List ℕ × List ℕ × List Event
  | [], _, log => (log, [], [])
  | b :: rest, cnt, log =>
    let (log2, evs) := addByteToDiscardLog cfg log (b % 256)
    if rest.isEmpty || cnt = 0 then (log2, rest, evs)
    else
      let (log3, rest3, evs3) := drainLoop cfg rest (cnt - 1) log2
      (log3, rest3, evs ++ evs3)

/-- The `ERROR_RECOVERY` case: while bytes are available, drain and
hex-log them (bounded per invocation); otherwise, once more than 500 ms
have passed since error recovery was entered, flush the discard log and
return to `WAITING`. -/
def errorRecoveryStep (cfg : Config) (now : ℕ) (m : Machine)
    (input : List ℕ) : Machine × List ℕ × List Event :=
  if !input.isEmpty then
    let (log2, rest, evs) := drainLoop cfg input 200 m.discardLog
    ({ m with discardLog := log2 }, rest, evs)
  else if 500 < now - m.errorRecoveryTime then
    let (m2, evs) := changeState m MState.waiting now
    let (log3, evsF) := flushDiscardLog m2.discardLog
    ({ m2 with discardLog := log3 }, [], evs ++ evsF)
  else (m, [], [])

/-- One invocation of `P1Mini::loop`: dispatch on the current state.
`now` is `millis()` at loop start, `input` the bytes available from the
transport during this invocation; the returned list is the unconsumed
input. -/
def step (cfg : Config) (m : Machine) (now : ℕ) (input : List ℕ) :
    Machine × List ℕ × List Event :=
  match m.state with
  | MState.identifying => identifyStep cfg now m input
  | MState.reading => readLoop cfg now input m
  | MState.verifyingCrc =>
    let (m2, evs) := verifyStep cfg m now
    (m2, input, evs)
  | MState.processingAscii =>
    let (m2, evs) := processAscii cfg now (m.buffer.length + 2) m
    (m2, input, evs)
  | MState.processingBinary =>
    let (m2, evs) := processBinary cfg now m
    (m2, input, evs)
  | MState.waiting => waitingStep cfg now m input
  | MState.errorRecovery => errorRecoveryStep cfg now m input

/-! ## Driving the machine -/

/-- Machine state as constructed.  The member initializers live in the
component header, which is not under `src/`.  Modelled from the spec:
the initial state is `Identifying` (spec section 4.3), the per-telegram
fields start cleared, timestamps start at 0. -/
def initialMachine : Machine :=
  { state := MState.identifying, dataFormat := DataFormat.unknown,
    buffer := [], crcPosition := 0, startOfData := 0, obisCode := 0,
    identifyingTime := 0, readingTime := 0, errorRecoveryTime := 0,
    discardLog := [] }

/-- A machine together with the transport queue of not-yet-consumed
bytes (bytes left unread by one invocation remain available to the
next). -/
structure World where
  m : Machine
  pending : List ℕ
deriving DecidableEq, Repr

/-- One scheduler tick: the newly arrived bytes join the queue and the
machine runs one invocation at time `now`. -/
def tick (cfg : Config) (w : World) (now : ℕ) (bytes : List ℕ) :
    World × List Event :=
  let r := step cfg w.m now (w.pending ++ bytes)
  (⟨r.1, r.2.1⟩, r.2.2)

/-- Run a sequence of ticks `(time, arriving bytes)`, accumulating all
emitted events in order. -/
def run (cfg : Config) (w : World) :
    List (ℕ × List ℕ) → World × List Event
  | [] => (w, [])
  | (t, bs) :: rest =>
    let (w2, evs) := tick cfg w t bs
    let (w3, evs2) := run cfg w2 rest
    (w3, evs ++ evs2)

/-- The machine state observed before the first tick and after each
tick. -/
def stateTrace (cfg : Config) (w : World) :
    List (ℕ × List ℕ) → List MState
  | [] => [w.m.state]
  | (t, bs) :: rest => w.m.state :: stateTrace cfg (tick cfg w t bs).1 rest

/-- Collapse consecutive repeats, leaving the sequence of distinct
states passed through. -/
def collapseRuns : List MState → List MState
  | [] => []
  | [a] => [a]
  | a :: b :: r =>
    if a = b then collapseRuns (b :: r) else a :: collapseRuns (b :: r)

/-- Recognizer for numeric publications among the events. -/
def isPublish : Event → Bool
  | Event.publish _ _ => true
  | _ => false

/-- Recognizer for discard-log flushes among the events. -/
def isFlush : Event → Bool
  | Event.flushLog _ => true
  | _ => false

/-- Ticks delivering a byte list one byte per tick, at 1 ms pace. -/
def byteTicks (t0 : ℕ) : List ℕ → List (ℕ × List ℕ)
  | [] => []
  | b :: rest => (t0, [b]) :: byteTicks (t0 + 1) rest

/-! ## Concrete telegrams used by the testable-property claims -/

/-- The bytes of the ASCII telegram of the spec up to and including the
checksum marker: `/ISk5\2MT382-1000<CR><LF>1-0:1.8.0(001234.567*kWh)<CR><LF>!`. -/
def asciiBody : List ℕ :=
  [47, 73, 83, 107, 53, 92, 50, 77, 84, 51, 56, 50, 45, 49, 48, 48, 48,
   13, 10,
   49, 45, 48, 58, 49, 46, 56, 46, 48, 40, 48, 48, 49, 50, 51, 52, 46,
   53, 54, 55, 42, 107, 87, 104, 41, 13, 10, 33]

/-- The telegram completed with its correct checksum `3F42` and the
trailing `<CR><LF>`. -/
def asciiTelegramGood : List ℕ := asciiBody ++ [51, 70, 52, 50, 13, 10]

/-- The telegram exactly as written in the spec, with checksum digits
`2A3B`. -/
def asciiTelegramSpec : List ℕ := asciiBody ++ [50, 65, 51, 66, 13, 10]

/-- The correct telegram with the last checksum digit altered
(`3F42` → `3F43`). -/
def asciiTelegramBad : List ℕ := asciiBody ++ [51, 70, 52, 51, 13, 10]

/-- Configuration for the ASCII scenarios: 256-byte buffer, no minimum
period, one numeric binding for address 1.8.0, no text sensors. -/
def cfgA : Config :=
  { bufferSize := 256, minPeriodMs := 0, discardLogSize := 1024,
    sensors := [OBIS 1 8 0], textSensors := [] }

/-- Byte-by-byte delivery of the good telegram, then one tick for CRC
verification and one for processing. -/
def asciiTicksGood : List (ℕ × List ℕ) :=
  byteTicks 100 asciiTelegramGood ++ [(200, []), (201, [])]

/-- Byte-by-byte delivery of the spec's literal telegram, then a
verification tick and one further quiet tick. -/
def asciiTicksSpec : List (ℕ × List ℕ) :=
  byteTicks 100 asciiTelegramSpec ++ [(200, []), (201, [])]

/-- Byte-by-byte delivery of the corrupted telegram, a verification
tick, then a quiet tick 600 ms later to let error recovery finish. -/
def asciiTicksBad : List (ℕ × List ℕ) :=
  byteTicks 100 asciiTelegramBad ++ [(200, []), (800, [])]

/-- A synthetic binary telegram: flag, header (length 45, so the
checksum boundary is 44), control byte 0x13 and its 6-byte skip, then an
octet-string address 1-0:1.8.0, an unsigned-32 with raw value 1234567,
an octet-string address 1-0:1.8.1, an unsigned-16 with raw 230, an
octet-string address 1-0:1.8.2, a signed-16 with raw -10, then the X25
checksum 0x1311 little-endian and the trailing flag. -/
def binFrame : List ℕ :=
  [126, 160, 45, 19, 0, 0, 0, 0, 0,
   9, 6, 1, 0, 1, 8, 0, 255,
   6, 0, 18, 214, 135,
   9, 6, 1, 0, 1, 8, 1, 255,
   16, 0, 230,
   9, 6, 1, 0, 1, 8, 2, 255,
   18, 255, 246,
   17, 19, 126]

/-- Configuration for the binary scenario: bindings for 1.8.0, 1.8.1
and 1.8.2. -/
def cfgB : Config :=
  { bufferSize := 256, minPeriodMs := 0, discardLogSize := 1024,
    sensors := [OBIS 1 8 0, OBIS 1 8 1, OBIS 1 8 2], textSensors := [] }

/-- Byte-by-byte delivery of the binary frame, then a verification tick
and a processing tick. -/
def binTicks : List (ℕ × List ℕ) :=
  byteTicks 100 binFrame ++ [(200, []), (201, [])]

/-- A machine part-way through binary TLV processing whose cursor rests
on the given tag byte; used to exhibit the unsupported-tag behavior. -/
def tagMachine (t : ℕ) : Machine :=
  { state := MState.processingBinary, dataFormat := DataFormat.binary,
    buffer := [126, 160, 45, 19, 0, 0, 0, 0, 0, t], crcPosition := 44,
    startOfData := 9, obisCode := OBIS 1 8 0, identifyingTime := 0,
    readingTime := 0, errorRecoveryTime := 0, discardLog := [] }

/-- A machine whose cursor rests on an unsigned-32 tag with raw value
1234567, with a binding registered for the current address. -/
def u32Machine : Machine :=
  { state := MState.processingBinary, dataFormat := DataFormat.binary,
    buffer := [6, 0, 18, 214, 135], crcPosition := 5,
    startOfData := 0, obisCode := OBIS 1 8 0, identifyingTime := 0,
    readingTime := 0, errorRecoveryTime := 0, discardLog := [] }

/-- A machine about to verify the good ASCII telegram: state and fields
as produced by reading the full telegram (checksum boundary 47). -/
def verAsciiMachine : Machine :=
  { state := MState.verifyingCrc, dataFormat := DataFormat.ascii,
    buffer := asciiTelegramGood, crcPosition := 47, startOfData := 0,
    obisCode := 0, identifyingTime := 0, readingTime := 0,
    errorRecoveryTime := 0, discardLog := [] }

/-- A machine about to verify the synthetic binary frame (checksum
boundary 44). -/
def verBinaryMachine : Machine :=
  { state := MState.verifyingCrc, dataFormat := DataFormat.binary,
    buffer := binFrame, crcPosition := 44, startOfData := 0,
    obisCode := 0, identifyingTime := 0, readingTime := 0,
    errorRecoveryTime := 0, discardLog := [] }

/-- A machine reading a binary frame whose checksum boundary is already
known (header bytes consumed, boundary 44). -/
def binReadingMachine : Machine :=
  { state := MState.reading, dataFormat := DataFormat.binary,
    buffer := [126, 160, 45], crcPosition := 44, startOfData := 0,
    obisCode := 0, identifyingTime := 0, readingTime := 100,
    errorRecoveryTime := 0, discardLog := [] }

/-- A machine inside error recovery (entered at time 0). -/
def recoveryMachine : Machine :=
  { initialMachine with state := MState.errorRecovery }

/-- The shape of texts the address decoder accepts, written from the
grammar of the spec (both notations), except that the digit runs may be
empty: `A-B:C.D.E` or `C.D.E` with every component a (possibly empty)
run of decimal digits. -/
def ObisShape (s : List ℕ) : Prop :=
  (∃ a b c d e : List ℕ,
      a.all isdigit = true ∧ b.all isdigit = true ∧ c.all isdigit = true ∧
      d.all isdigit = true ∧ e.all isdigit = true ∧
      s = a ++ 45 :: (b ++ 58 :: (c ++ 46 :: (d ++ 46 :: e))))
  ∨ (∃ c d e : List ℕ,
      c.all isdigit = true ∧ d.all isdigit = true ∧ e.all isdigit = true ∧
      s = c ++ 46 :: (d ++ 46 :: e))

/-- The buffer invariant: the write cursor never exceeds the capacity,
it is 0 while identifying, and it is strictly below the capacity while
reading (so the next write stays in bounds). -/
def BufInv (cfg : Config) (m : Machine) : Prop :=
  m.buffer.length ≤ cfg.bufferSize
  ∧ (m.state = MState.identifying → m.buffer.length = 0)
  ∧ (m.state = MState.reading → m.buffer.length < cfg.bufferSize)

/-- A small configuration used to exhibit the overflow transition. -/
def cfgSmall : Config :=
  { bufferSize := 8, minPeriodMs := 0, discardLogSize := 1024,
    sensors := [], textSensors := [] }

/-! ## Claim C1 -/

set_option maxRecDepth 100000 in
/-- C1 (counterexample): the spec's telegram carries checksum digits `2A3B`,
but the CRC of its bytes through `!` is 0x3F42, so the literal telegram
is rejected: delivered byte-by-byte it yields no publication and the
machine ends in error recovery instead of processing. -/
theorem C1_spec_checksum_counterexample :
    crc16_ccitt_false asciiBody = 0x3f42
  ∧ (0x2a3b : ℕ) ≠ 0x3f42
  ∧ ((run cfgA ⟨initialMachine, []⟩ asciiTicksSpec).2.filter isPublish) = []
  ∧ (run cfgA ⟨initialMachine, []⟩ asciiTicksSpec).1.m.state
      = MState.errorRecovery := by
  refine ⟨by decide, by decide, ?_, ?_⟩ <;> decide

set_option maxRecDepth 100000 in
/-- C1: for the well-formed ASCII telegram
`/ISk5\2MT382-1000<CR><LF>1-0:1.8.0(001234.567*kWh)<CR><LF>!3F42<CR><LF>`
(the spec's telegram completed with its actual checksum 0x3F42, so that
the checksum is correct) delivered byte-by-byte with a registered
numeric binding for address 1.8.0, the machine passes through
Identifying, Reading, VerifyingCrc, ProcessingAscii and Waiting in that
order, and exactly that binding is published the value 1234.567;
the leading zeros of `001234.567` are suppressed before parsing. -/
theorem C1_ascii_telegram_trace :
    collapseRuns (stateTrace cfgA ⟨initialMachine, []⟩ asciiTicksGood)
      = [MState.identifying, MState.reading, MState.verifyingCrc,
         MState.processingAscii, MState.waiting]
  ∧ ((run cfgA ⟨initialMachine, []⟩ asciiTicksGood).2.filter isPublish)
      = [Event.publish (OBIS 1 8 0) (mkRat 1234567 1000)]
  ∧ (mkRat 1234567 1000 : ℚ) = 1234567 / 1000
  ∧ skipLeadingZeros [48, 48, 49, 50, 51, 52, 46, 53, 54, 55, 42, 107, 87, 104]
      = [49, 50, 51, 52, 46, 53, 54, 55, 42, 107, 87, 104] := by
  refine ⟨by decide, by decide, ?_, by decide⟩
  rw [Rat.mkRat_eq_div]; norm_num

/-! ## Claim C4 -/

set_option maxRecDepth 100000 in
/-- C4: the same telegram with its last checksum digit altered
(`3F42` → `3F43`) yields zero publications; every buffered byte of the
telegram is appended to the discard log as two hex characters and the
log is flushed (a single flush containing the hex dump of all 53
buffered bytes); and the machine passes through ErrorRecovery and then
back to Waiting. -/
theorem C4_checksum_mismatch_discards :
    ((run cfgA ⟨initialMachine, []⟩ asciiTicksBad).2.filter isPublish) = []
  ∧ ((run cfgA ⟨initialMachine, []⟩ asciiTicksBad).2.filter isFlush)
      = [Event.flushLog (hexDump asciiTelegramBad)]
  ∧ collapseRuns (stateTrace cfgA ⟨initialMachine, []⟩ asciiTicksBad)
      = [MState.identifying, MState.reading, MState.verifyingCrc,
         MState.errorRecovery, MState.waiting] := by
  refine ⟨?_, ?_, ?_⟩ <;> decide

/-! ## Claim C2 -/

set_option maxRecDepth 100000 in
/-- C2: during binary TLV processing, an unsigned-32 tag publishes
raw/1000, an unsigned-16 tag raw/10, a signed-16 tag its sign-extended
raw value over 10, each to the binding registered for the current
address; a 6-byte octet-string sets the current address from its data
bytes; any unrecognized tag byte moves the machine to error recovery;
and the synthetic binary telegram (octet-string 1-0:1.8.0 followed by an
unsigned-32 with raw 1234567, plus 1.8.1/unsigned-16 raw 230 and
1.8.2/signed-16 raw -10) dispatches 1234.567 to the 1.8.0 binding. -/
theorem C2_binary_tlv :
    (((run cfgB ⟨initialMachine, []⟩ binTicks).2.filter isPublish)
        = [Event.publish (OBIS 1 8 0) (mkRat 1234567 1000),
           Event.publish (OBIS 1 8 1) (mkRat 230 10),
           Event.publish (OBIS 1 8 2) (mkRat (-10) 10)]
      ∧ collapseRuns (stateTrace cfgB ⟨initialMachine, []⟩ binTicks)
        = [MState.identifying, MState.reading, MState.verifyingCrc,
           MState.processingBinary, MState.waiting])
  ∧ (∀ cfg : Config, ∀ now : ℕ, ∀ m : Machine,
      rd m.buffer m.startOfData = 0x06 → m.obisCode ∈ cfg.sensors →
      (tlvLoop cfg now 1 m).2.head?
        = some (Event.publish m.obisCode
            (mkRat (u32of m.buffer m.startOfData) 1000)))
  ∧ (∀ cfg : Config, ∀ now : ℕ, ∀ m : Machine,
      rd m.buffer m.startOfData = 0x10 → m.obisCode ∈ cfg.sensors →
      (tlvLoop cfg now 1 m).2.head?
        = some (Event.publish m.obisCode
            (mkRat (u16of m.buffer m.startOfData) 10)))
  ∧ (∀ cfg : Config, ∀ now : ℕ, ∀ m : Machine,
      rd m.buffer m.startOfData = 0x12 → m.obisCode ∈ cfg.sensors →
      (tlvLoop cfg now 1 m).2.head?
        = some (Event.publish m.obisCode
            (mkRat (i16of m.buffer m.startOfData) 10)))
  ∧ (∀ cfg : Config, ∀ now : ℕ, ∀ m : Machine,
      rd m.buffer m.startOfData = 0x09 →
      rd m.buffer (m.startOfData + 1) = 6 →
      (tlvLoop cfg now 1 m).1.obisCode
        = OBIS (rd m.buffer (m.startOfData + 4))
            (rd m.buffer (m.startOfData + 5))
            (rd m.buffer (m.startOfData + 6)))
  ∧ (∀ cfg : Config, ∀ now fuel : ℕ, ∀ m : Machine,
      rd m.buffer m.startOfData ∉ supportedTags → 1 ≤ fuel →
      (tlvLoop cfg now fuel m).1.state = MState.errorRecovery) := by
  constructor
  · exact ⟨by decide, by decide⟩
  refine ⟨?_, ?_, ?_, ?_, ?_⟩
  · intro cfg now m ht hmem
    simp only [tlvLoop, ht, hmem]
    norm_num
    split <;> simp
  · intro cfg now m ht hmem
    simp only [tlvLoop, ht, hmem]
    norm_num
    split <;> simp
  · intro cfg now m ht hmem
    simp only [tlvLoop, ht, hmem]
    norm_num
    split <;> simp
  · intro cfg now m ht hlen
    simp only [tlvLoop, ht, hlen]
    norm_num
    split
    · simp only [changeState]
      split <;> simp
    · simp [tlvLoop]
  · intro cfg now fuel m ht hfuel
    obtain ⟨fuel, rfl⟩ : ∃ k, fuel = k + 1 :=
      ⟨fuel - 1, (Nat.succ_pred_eq_of_pos hfuel).symm⟩
    simp only [supportedTags, List.mem_cons, not_or] at ht
    obtain ⟨h0, h1, h2, h6, h9, ha, hc, hf, h10, h12, h16, _⟩ := ht
    simp [tlvLoop, h0, h1, h2, h6, h9, ha, hc, hf, h10, h12, h16,
      changeState]

/-- C2 witness: the unsigned-32 dispatch lemma applied to a concrete
machine carrying raw value 1234567 for the 1.8.0 binding, and the
unsupported-tag lemma applied to tag byte 0x42. -/
theorem C2_witness :
    (tlvLoop cfgB 0 1 u32Machine).2.head?
      = some (Event.publish (OBIS 1 8 0) (mkRat 1234567 1000))
  ∧ (tlvLoop cfgB 0 7 (tagMachine 0x42)).1.state = MState.errorRecovery := by
  constructor
  · exact (C2_binary_tlv.2.1 cfgB 0 u32Machine (by decide)
      (by decide)).trans (by decide)
  · exact C2_binary_tlv.2.2.2.2.2 cfgB 0 7 (tagMachine 0x42)
      (by decide) (by decide)

/-! ## Claim C3 -/

set_option maxRecDepth 400000 in
/-- C3: the ASCII checksum is `crc16_ccitt_false` (initial value 0,
reflected polynomial 0xA001 — witnessed by the reference vectors) over
the buffered bytes up to the checksum boundary (which sits just past the
`!` marker), compared with the transmitted hex digits parsed big-endian;
the binary checksum is `crc16_x25` (initial 0xFFFF, polynomial 0x8408,
final XOR 0xFFFF) over the bytes from one past the leading flag to just
before the 2-byte checksum field, compared with the little-endian stored
value.  Both engines are functions of the input bytes. -/
theorem C3_checksum_coverage :
    crc16_ccitt_false [49, 50, 51, 52, 53, 54, 55, 56, 57] = 0xbb3d
  ∧ crc16_x25 [49, 50, 51, 52, 53, 54, 55, 56, 57] = 0x906e
  ∧ crc16_ccitt_false [] = 0 ∧ crc16_x25 [] = 0
  ∧ (∀ cfg : Config, ∀ m : Machine, ∀ now : ℕ, ∀ input : List ℕ,
      m.state = MState.verifyingCrc → m.dataFormat = DataFormat.ascii →
      ((crc16_ccitt_false (m.buffer.take m.crcPosition.toNat) : ℤ)
          = strtolHex (m.buffer.drop m.crcPosition.toNat) →
        (step cfg m now input).1.state = MState.processingAscii)
      ∧ ((crc16_ccitt_false (m.buffer.take m.crcPosition.toNat) : ℤ)
          ≠ strtolHex (m.buffer.drop m.crcPosition.toNat) →
        (step cfg m now input).1.state = MState.errorRecovery))
  ∧ (∀ cfg : Config, ∀ m : Machine, ∀ now : ℕ, ∀ input : List ℕ,
      m.state = MState.verifyingCrc → m.dataFormat = DataFormat.binary →
      ((crc16_x25 ((m.buffer.drop 1).take (m.crcPosition.toNat - 1)) : ℤ)
          = (rd m.buffer (m.crcPosition.toNat + 1) : ℤ) * 256
              + (rd m.buffer m.crcPosition.toNat : ℤ) →
        (step cfg m now input).1.state = MState.processingBinary)
      ∧ ((crc16_x25 ((m.buffer.drop 1).take (m.crcPosition.toNat - 1)) : ℤ)
          ≠ (rd m.buffer (m.crcPosition.toNat + 1) : ℤ) * 256
              + (rd m.buffer m.crcPosition.toNat : ℤ) →
        (step cfg m now input).1.state = MState.errorRecovery)) := by
  refine ⟨by decide, by decide, by decide, by decide, ?_, ?_⟩
  · intro cfg m now input hst hfmt
    obtain ⟨st, fmt, buf, cp, sod, ob, it, rt, ert, dl⟩ := m
    simp only at hst hfmt
    subst hst; subst hfmt
    constructor
    · intro h
      simp only [step, verifyStep] at h ⊢
      simp only [reduceCtorEq, if_true, if_false, reduceIte] at h ⊢
      split
      · simp [changeState]
      · next hne => exact absurd h hne
    · intro h
      simp only [step, verifyStep] at h ⊢
      simp only [reduceCtorEq, if_true, if_false, reduceIte] at h ⊢
      split
      · next heq => exact absurd heq h
      · simp [changeState, discardBytes, flushDiscardLog]
  · intro cfg m now input hst hfmt
    obtain ⟨st, fmt, buf, cp, sod, ob, it, rt, ert, dl⟩ := m
    simp only at hst hfmt
    subst hst; subst hfmt
    constructor
    · intro h
      simp only [step, verifyStep] at h ⊢
      simp only [reduceCtorEq, if_true, if_false, reduceIte] at h ⊢
      split
      · simp [changeState]
      · next hne => exact absurd h hne
    · intro h
      simp only [step, verifyStep] at h ⊢
      simp only [reduceCtorEq, if_true, if_false, reduceIte] at h ⊢
      split
      · next heq => exact absurd heq h
      · simp [changeState, discardBytes, flushDiscardLog]

set_option maxRecDepth 400000 in
/-- C3 witness: the characterization applied to the two concrete
verification-ready machines; the good ASCII telegram proceeds to ASCII
processing and the binary frame to binary processing. -/
theorem C3_witness :
    (step cfgA verAsciiMachine 200 []).1.state = MState.processingAscii
  ∧ (step cfgB verBinaryMachine 200 []).1.state = MState.processingBinary := by
  constructor
  · exact (C3_checksum_coverage.2.2.2.2.1 cfgA verAsciiMachine 200 []
      rfl rfl).1 (by decide)
  · exact (C3_checksum_coverage.2.2.2.2.2 cfgB verBinaryMachine 200 []
      rfl rfl).1 (by decide)

/-! ## Claim C9 -/

/-- C9 (counterexample): the transition into ascii processing fires no
notification hook, contradicting the claim that every transition fires
a category-specific hook. -/
theorem C9_counterexample :
    (changeState initialMachine MState.processingAscii 5).2 = [] := by
  decide

/-- C9 (amended): the hooks fired by `ChangeState` are: ready-to-receive
on entry to Identifying, receiving-update on entry to Reading,
update-received on entry to VerifyingCrc (after the full frame is
received, before the checksum is checked), update-processed on entry to
Waiting from any state other than ErrorRecovery, and
communication-error on entry to ErrorRecovery; entries to the two
processing states and to Waiting from ErrorRecovery fire no hook. -/
theorem C9_transition_hooks (m : Machine) (now : ℕ) :
    (changeState m MState.identifying now).2 = [Event.readyToReceive]
  ∧ (changeState m MState.reading now).2 = [Event.receivingUpdate]
  ∧ (changeState m MState.verifyingCrc now).2 = [Event.updateReceived]
  ∧ (changeState m MState.processingAscii now).2 = []
  ∧ (changeState m MState.processingBinary now).2 = []
  ∧ (m.state ≠ MState.errorRecovery →
      (changeState m MState.waiting now).2 = [Event.updateProcessed])
  ∧ (m.state = MState.errorRecovery →
      (changeState m MState.waiting now).2 = [])
  ∧ (changeState m MState.errorRecovery now).2
      = [Event.communicationError] := by
  refine ⟨rfl, rfl, rfl, rfl, rfl, ?_, ?_, rfl⟩
  · intro h; simp [changeState, h]
  · intro h; simp [changeState, h]

/-- C9 witness: the waiting-entry hook cases at concrete machines. -/
theorem C9_witness :
    (changeState initialMachine MState.waiting 0).2
      = [Event.updateProcessed]
  ∧ (changeState recoveryMachine MState.waiting 0).2 = [] := by
  constructor
  · exact (C9_transition_hooks initialMachine 0).2.2.2.2.2.1 (by decide)
  · exact (C9_transition_hooks recoveryMachine 0).2.2.2.2.2.2.1 rfl

/-! ## Claim C8 -/

/-- The drain loop of error recovery consumes `min length 201` bytes:
the do-while tests the counter against 0 before decrementing it, so the
body runs once for the unconditional first byte plus up to 200 more. -/
theorem drainLoop_consumes (cfg : Config) :
    ∀ (input : List ℕ) (cnt : ℕ) (log : List ℕ),
      (drainLoop cfg input cnt log).2.1.length
        = input.length - min input.length (cnt + 1) := by
  intro input
  induction input with
  | nil => intro cnt log; simp [drainLoop]
  | cons b rest ih =>
    intro cnt log
    simp only [drainLoop]
    split
    · next h =>
      simp only [Bool.or_eq_true, List.isEmpty_iff, decide_eq_true_eq] at h
      rcases h with h | h
      · subst h; simp
      · subst h; simp only [List.length_cons]; omega
    · next h =>
      simp only [Bool.or_eq_true, List.isEmpty_iff, decide_eq_true_eq,
        not_or] at h
      obtain ⟨hr, hc⟩ := h
      have hlen : rest.length ≠ 0 := fun h0 => hr (List.eq_nil_of_length_eq_zero h0)
      simp only [ih, List.length_cons]
      omega

/-- C8 (amended): one error-recovery invocation with bytes available
drains `min available 201` of them (at most 201, not 200) and stays in
error recovery; an invocation finding no byte available more than
500 ms after error recovery was entered (the clock runs from entry to
recovery, not from the last byte) flushes the discard log and moves to
Waiting; and entry to Identifying resets the write cursor, the checksum
boundary and the data format. -/
theorem C8_recovery_policy :
    (∀ cfg : Config, ∀ m : Machine, ∀ now : ℕ, ∀ input : List ℕ,
      m.state = MState.errorRecovery → input ≠ [] →
      (step cfg m now input).2.1.length
          = input.length - min input.length 201
      ∧ input.length - (step cfg m now input).2.1.length ≤ 201
      ∧ (step cfg m now input).1.state = MState.errorRecovery)
  ∧ (∀ cfg : Config, ∀ m : Machine, ∀ now : ℕ,
      m.state = MState.errorRecovery → 500 < now - m.errorRecoveryTime →
      (step cfg m now []).1.state = MState.waiting
      ∧ (step cfg m now []).2.2
          = if m.discardLog.isEmpty then []
            else [Event.flushLog m.discardLog])
  ∧ (∀ m : Machine, ∀ now : ℕ,
      (changeState m MState.identifying now).1.buffer = []
      ∧ (changeState m MState.identifying now).1.crcPosition = 0
      ∧ (changeState m MState.identifying now).1.dataFormat
          = DataFormat.unknown
      ∧ (changeState m MState.identifying now).1.state
          = MState.identifying) := by
  refine ⟨?_, ?_, ?_⟩
  · intro cfg m now input hst hne
    obtain ⟨st, fmt, buf, cp, sod, ob, it, rt, ert, dl⟩ := m
    simp only at hst
    subst hst
    have hemp : input.isEmpty = false := by
      cases input with
      | nil => exact absurd rfl hne
      | cons a l => rfl
    simp only [step, errorRecoveryStep, hemp, Bool.not_false, reduceIte]
    refine ⟨drainLoop_consumes cfg input 200 dl, ?_, ?_⟩
    · rw [drainLoop_consumes cfg input 200 dl]
      omega
    · first
      | rfl
      | trivial
  · intro cfg m now hst h500
    obtain ⟨st, fmt, buf, cp, sod, ob, it, rt, ert, dl⟩ := m
    simp only at hst h500
    subst hst
    simp only [step, errorRecoveryStep, List.isEmpty_nil, Bool.not_true,
      Bool.false_eq_true, if_false, if_pos h500, changeState,
      flushDiscardLog, reduceIte, reduceCtorEq]
    constructor
    · first
      | rfl
      | trivial
    · split <;> simp
  · intro m now
    exact ⟨rfl, rfl, rfl, rfl⟩

set_option maxRecDepth 400000 in
/-- C8 (counterexample): with 202 bytes available, one invocation drains 201 of
them, exceeding the claimed bound of 200; and after a byte arrives
499 ms into recovery, the very next quiet invocation at 600 ms already
returns to Waiting even though the transport was silent for only 101 ms,
so the 500 ms requirement is measured from entry to recovery, not from
the last byte. -/
theorem C8_counterexample :
    (List.replicate 202 65).length
        - (step cfgA recoveryMachine 0 (List.replicate 202 65)).2.1.length
      = 201
  ∧ ¬(201 ≤ 200)
  ∧ (tick cfgA ⟨recoveryMachine, []⟩ 499 [65]).1.m.state
      = MState.errorRecovery
  ∧ (tick cfgA (tick cfgA ⟨recoveryMachine, []⟩ 499 [65]).1 600 []).1.m.state
      = MState.waiting := by
  refine ⟨by decide, by decide, by decide, by decide⟩

/-- C8 witness: the recovery policy applied to a machine holding one
available byte (all of it consumed) and to a quiet invocation 601 ms
after entering recovery. -/
theorem C8_witness :
    (step cfgA recoveryMachine 0 [65]).2.1.length = 0
  ∧ (step cfgA recoveryMachine 601 []).1.state = MState.waiting := by
  constructor
  · have h := (C8_recovery_policy.1 cfgA recoveryMachine 0 [65] rfl
      (by decide)).1
    simpa using h
  · exact (C8_recovery_policy.2.1 cfgA recoveryMachine 601 rfl
      (by decide)).1

/-! ## Claim C6 -/

/-- The ASCII record loop never touches the buffer, the checksum
boundary, or the wire format; it either stays in its state or moves to
Waiting. -/
theorem processAscii_fields (cfg : Config) (now : ℕ) :
    ∀ (fuel : ℕ) (m : Machine),
      (processAscii cfg now fuel m).1.buffer = m.buffer
      ∧ (processAscii cfg now fuel m).1.crcPosition = m.crcPosition
      ∧ (processAscii cfg now fuel m).1.dataFormat = m.dataFormat
      ∧ ((processAscii cfg now fuel m).1.state = m.state
         ∨ (processAscii cfg now fuel m).1.state = MState.waiting) := by
  intro fuel
  induction fuel with
  | zero => intro m; exact ⟨rfl, rfl, rfl, Or.inl rfl⟩
  | succ fuel ih =>
    intro m
    simp only [processAscii]
    split
    · simp only [changeState]
      split <;> exact ⟨rfl, rfl, rfl, Or.inr rfl⟩
    · refine ⟨(ih _).1, (ih _).2.1, (ih _).2.2.1, ?_⟩
      rcases (ih _).2.2.2 with h | h
      · exact Or.inl h
      · exact Or.inr h

/-- The TLV walk never touches the buffer, the checksum boundary, or
the wire format; it stays in its state or ends in Waiting or error
recovery. -/
theorem tlvLoop_fields (cfg : Config) (now : ℕ) :
    ∀ (fuel : ℕ) (m : Machine),
      (tlvLoop cfg now fuel m).1.buffer = m.buffer
      ∧ (tlvLoop cfg now fuel m).1.crcPosition = m.crcPosition
      ∧ (tlvLoop cfg now fuel m).1.dataFormat = m.dataFormat
      ∧ ((tlvLoop cfg now fuel m).1.state = m.state
         ∨ (tlvLoop cfg now fuel m).1.state = MState.waiting
         ∨ (tlvLoop cfg now fuel m).1.state = MState.errorRecovery) := by
  intro fuel
  induction fuel with
  | zero => intro m; exact ⟨rfl, rfl, rfl, Or.inl rfl⟩
  | succ fuel ih =>
    intro m
    simp only [tlvLoop]
    split
    · exact ⟨rfl, rfl, rfl, Or.inr (Or.inr rfl)⟩
    · split
      · simp only [changeState]
        split <;> exact ⟨rfl, rfl, rfl, Or.inr (Or.inl rfl)⟩
      · refine ⟨(ih _).1, (ih _).2.1, (ih _).2.2.1, ?_⟩
        rcases (ih _).2.2.2 with h | h | h
        · exact Or.inl h
        · exact Or.inr (Or.inl h)
        · exact Or.inr (Or.inr h)

/-- Binary processing preserves the checksum boundary. -/
theorem processBinary_crc (cfg : Config) (now : ℕ) (m : Machine) :
    (processBinary cfg now m).1.crcPosition = m.crcPosition := by
  simp only [processBinary]
  split
  · split
    · rfl
    · exact (tlvLoop_fields cfg now _ _).2.1
  · exact (tlvLoop_fields cfg now _ _).2.1

/-- CRC verification preserves the checksum boundary. -/
theorem verifyStep_crc (cfg : Config) (m : Machine) (now : ℕ) :
    (verifyStep cfg m now).1.crcPosition = m.crcPosition := by
  simp only [verifyStep]
  repeat' split
  all_goals rfl

/-- Any transition other than into Identifying leaves the checksum
boundary untouched. -/
theorem changeState_crcPosition (m : Machine) (st : MState) (now : ℕ)
    (h : st ≠ MState.identifying) :
    (changeState m st now).1.crcPosition = m.crcPosition := by
  cases st
  case identifying => exact absurd rfl h
  case waiting =>
    simp only [changeState]
    split
    · rfl
    · rfl
  all_goals rfl

/-- The end-of-frame test never selects Identifying. -/
theorem frameEnd_ne_identifying (fmt : DataFormat) (b pos : ℕ) (cp : ℤ)
    (st : MState) (h : frameEnd fmt b pos cp = some st) :
    st ≠ MState.identifying := by
  unfold frameEnd at h
  repeat' split at h
  all_goals first
    | exact Option.noConfusion h
    | (cases h; intro hc; cases hc)

/-- In binary format the checksum boundary is only written when the
cursor reaches 3: with three bytes already buffered, tracking keeps the
old value. -/
theorem crcTrack_binary_stable (buf2 : List ℕ) (b : ℕ) (old : ℤ)
    (hlen : buf2.length ≠ 3) :
    crcTrack DataFormat.binary buf2 b old = some old := by
  unfold crcTrack
  rw [if_neg, if_neg]
  · exact fun h => hlen h.2
  · exact fun h => DataFormat.noConfusion h.1

/-- While reading a binary frame whose first three bytes are already
buffered, the byte loop never reassigns the checksum boundary: the
assignment only happens when the write cursor reaches 3. -/
theorem readLoop_binary_crc (cfg : Config) (now : ℕ) :
    ∀ (input : List ℕ) (m : Machine),
      m.dataFormat = DataFormat.binary → 3 ≤ m.buffer.length →
      (readLoop cfg now input m).1.crcPosition = m.crcPosition := by
  intro input
  induction input with
  | nil =>
    intro m hfmt hlen
    simp only [readLoop]
    split
    · rfl
    · rfl
  | cons b rest ih =>
    intro m hfmt hlen
    have hpos : (m.buffer ++ [b % 256]).length ≠ 3 := by
      simp only [List.length_append, List.length_cons, List.length_nil]
      omega
    have htrack := crcTrack_binary_stable (m.buffer ++ [b % 256]) (b % 256)
      m.crcPosition hpos
    simp only [readLoop, hfmt, htrack]
    split
    · next st heq =>
      exact changeState_crcPosition _ st now
        (frameEnd_ne_identifying _ _ _ _ st heq)
    · split
      · rfl
      · exact ih _ rfl (by simp only [List.length_append,
          List.length_cons, List.length_nil]; omega)

/-- C6 (amended): within a binary telegram the checksum boundary, once
derived from the 3-byte header, is never reassigned — preserved by
every further reading step and by the verification, processing and
error-recovery states.  (In the ASCII format the boundary is re-set on
every `!` byte read, see the counterexample.) -/
theorem C6_crc_boundary_stable :
    (∀ cfg : Config, ∀ now : ℕ, ∀ input : List ℕ, ∀ m : Machine,
      m.state = MState.reading → m.dataFormat = DataFormat.binary →
      0 < m.crcPosition → 3 ≤ m.buffer.length →
      (step cfg m now input).1.crcPosition = m.crcPosition)
  ∧ (∀ cfg : Config, ∀ now : ℕ, ∀ input : List ℕ, ∀ m : Machine,
      m.state = MState.verifyingCrc →
      (step cfg m now input).1.crcPosition = m.crcPosition)
  ∧ (∀ cfg : Config, ∀ now : ℕ, ∀ input : List ℕ, ∀ m : Machine,
      m.state = MState.processingAscii →
      (step cfg m now input).1.crcPosition = m.crcPosition)
  ∧ (∀ cfg : Config, ∀ now : ℕ, ∀ input : List ℕ, ∀ m : Machine,
      m.state = MState.processingBinary →
      (step cfg m now input).1.crcPosition = m.crcPosition)
  ∧ (∀ cfg : Config, ∀ now : ℕ, ∀ input : List ℕ, ∀ m : Machine,
      m.state = MState.errorRecovery →
      (step cfg m now input).1.crcPosition = m.crcPosition) := by
  refine ⟨?_, ?_, ?_, ?_, ?_⟩
  · intro cfg now input m hst hfmt _hcp hlen
    obtain ⟨st, fmt, buf, cp, sod, ob, it, rt, ert, dl⟩ := m
    simp only at hst hfmt hlen
    subst hst
    exact readLoop_binary_crc cfg now input _ hfmt hlen
  · intro cfg now input m hst
    obtain ⟨st, fmt, buf, cp, sod, ob, it, rt, ert, dl⟩ := m
    simp only at hst
    subst hst
    exact verifyStep_crc cfg _ now
  · intro cfg now input m hst
    obtain ⟨st, fmt, buf, cp, sod, ob, it, rt, ert, dl⟩ := m
    simp only at hst
    subst hst
    show (processAscii cfg now (buf.length + 2)
        ⟨MState.processingAscii, fmt, buf, cp, sod, ob, it, rt, ert,
          dl⟩).1.crcPosition = cp
    exact (processAscii_fields cfg now (buf.length + 2)
      ⟨MState.processingAscii, fmt, buf, cp, sod, ob, it, rt, ert, dl⟩).2.1
  · intro cfg now input m hst
    obtain ⟨st, fmt, buf, cp, sod, ob, it, rt, ert, dl⟩ := m
    simp only at hst
    subst hst
    show (processBinary cfg now
        ⟨MState.processingBinary, fmt, buf, cp, sod, ob, it, rt, ert,
          dl⟩).1.crcPosition = cp
    exact processBinary_crc cfg now
      ⟨MState.processingBinary, fmt, buf, cp, sod, ob, it, rt, ert, dl⟩
  · intro cfg now input m hst
    obtain ⟨st, fmt, buf, cp, sod, ob, it, rt, ert, dl⟩ := m
    simp only at hst
    subst hst
    simp only [step, errorRecoveryStep]
    split
    · rfl
    · split
      · rfl
      · rfl

/-- C6 (counterexample): in the ASCII format the boundary moves: after `/!`
the boundary is 2, and a second `!` in the same telegram (the machine
still reading, no reset in between) reassigns it to 3. -/
theorem C6_counterexample :
    (run cfgA ⟨initialMachine, []⟩ [(10, [47, 33])]).1.m.crcPosition = 2
  ∧ (run cfgA ⟨initialMachine, []⟩ [(10, [47, 33])]).1.m.state
      = MState.reading
  ∧ (run cfgA ⟨initialMachine, []⟩
      [(10, [47, 33]), (20, [33])]).1.m.crcPosition = 3
  ∧ (run cfgA ⟨initialMachine, []⟩
      [(10, [47, 33]), (20, [33])]).1.m.state = MState.reading := by
  refine ⟨by decide, by decide, by decide, by decide⟩

/-- C6 witness: a binary reading step on a machine with boundary 44 and
three buffered bytes leaves the boundary at 44. -/
theorem C6_witness :
    (step cfgB binReadingMachine 101 [0]).1.crcPosition = 44 :=
  C6_crc_boundary_stable.1 cfgB 101 [0] binReadingMachine rfl rfl
    (by decide) (by decide)

/-! ## Claim C10 -/

/-- The packed address always fits in 28 bits. -/
theorem obisBound (major minor micro : ℕ) :
    OBIS major minor micro ≤ 0x0fffffff := by
  have h1 : (major &&& 0xfff) <<< 16 < 2 ^ 28 := by
    rw [Nat.shiftLeft_eq]
    have hm : major &&& 0xfff < 2 ^ 12 :=
      Nat.and_lt_two_pow major (show (0xfff : ℕ) < 2 ^ 12 by norm_num)
    calc (major &&& 0xfff) * 2 ^ 16 < 2 ^ 12 * 2 ^ 16 :=
          (Nat.mul_lt_mul_right (show 0 < 2 ^ 16 by norm_num)).mpr hm
      _ = 2 ^ 28 := by norm_num
  have h2 : (minor &&& 0xff) <<< 8 < 2 ^ 28 := by
    rw [Nat.shiftLeft_eq]
    have hm : minor &&& 0xff < 2 ^ 8 :=
      Nat.and_lt_two_pow minor (show (0xff : ℕ) < 2 ^ 8 by norm_num)
    calc (minor &&& 0xff) * 2 ^ 8 < 2 ^ 8 * 2 ^ 8 :=
          (Nat.mul_lt_mul_right (show 0 < 2 ^ 8 by norm_num)).mpr hm
      _ ≤ 2 ^ 28 := by norm_num
  have h3 : micro &&& 0xff < 2 ^ 28 :=
    lt_of_lt_of_le
      (Nat.and_lt_two_pow micro (show (0xff : ℕ) < 2 ^ 8 by norm_num))
      (show (2 : ℕ) ^ 8 ≤ 2 ^ 28 by norm_num)
  have h := Nat.or_lt_two_pow (Nat.or_lt_two_pow h1 h2) h3
  unfold OBIS
  omega

/-- C10: the encoder masks its components (0xfff, 0xff, 0xff), so every
encoded key is at most 0x0FFFFFFF and never equals the sentinel
0xFFFFFFFF; the textual decoder returns either the sentinel or such a
key, so success and failure are always distinguishable; and components
differing only above the mask widths encode to the same key (silent
truncation). -/
theorem C10_encoder_masks :
    (∀ major minor micro : ℕ,
      OBIS major minor micro ≤ 0x0fffffff
      ∧ OBIS major minor micro ≠ OBIS_ERROR)
  ∧ (∀ major minor micro jM jm ju : ℕ,
      OBIS (major + 2 ^ 12 * jM) (minor + 2 ^ 8 * jm)
          (micro + 2 ^ 8 * ju)
        = OBIS major minor micro)
  ∧ (∀ s : List ℕ, OBIScode s = OBIS_ERROR ∨ OBIScode s ≤ 0x0fffffff) := by
  refine ⟨?_, ?_, ?_⟩
  · intro major minor micro
    refine ⟨obisBound major minor micro, ?_⟩
    have h := obisBound major minor micro
    unfold OBIS_ERROR
    omega
  · intro major minor micro jM jm ju
    have h12 : (0xfff : ℕ) = 2 ^ 12 - 1 := by norm_num
    have h8 : (0xff : ℕ) = 2 ^ 8 - 1 := by norm_num
    have hM : (major + 2 ^ 12 * jM) &&& 0xfff = major &&& 0xfff := by
      rw [h12, Nat.and_pow_two_sub_one_eq_mod,
        Nat.and_pow_two_sub_one_eq_mod, Nat.add_mul_mod_self_left]
    have hm : (minor + 2 ^ 8 * jm) &&& 0xff = minor &&& 0xff := by
      rw [h8, Nat.and_pow_two_sub_one_eq_mod,
        Nat.and_pow_two_sub_one_eq_mod, Nat.add_mul_mod_self_left]
    have hu : (micro + 2 ^ 8 * ju) &&& 0xff = micro &&& 0xff := by
      rw [h8, Nat.and_pow_two_sub_one_eq_mod,
        Nat.and_pow_two_sub_one_eq_mod, Nat.add_mul_mod_self_left]
    unfold OBIS
    rw [hM, hm, hu]
  · intro s
    unfold OBIScode
    repeat' split
    all_goals first
      | (left; rfl)
      | (right; exact obisBound _ _ _)

/-! ## Claim C7 -/

/-- Scanning a run of digits followed by a non-digit (or the end of the
text) consumes exactly the digits and folds them into the wrapping
accumulator. -/
theorem scanDigits_append (d : List ℕ) (r : List ℕ) (a : ℕ)
    (hd : d.all isdigit = true)
    (hr : ∀ c, r.head? = some c → isdigit c = false) :
    scanDigits (d ++ r) a
      = (d.foldl (fun x c => (x * 10 + (c - 48)) % 2 ^ 32) a, r) := by
  induction d generalizing a with
  | nil =>
    simp only [List.nil_append, List.foldl_nil]
    cases r with
    | nil => rfl
    | cons c r2 =>
      simp [scanDigits, hr c rfl]
  | cons x d2 ih =>
    simp only [List.all_cons, Bool.and_eq_true] at hd
    simp only [List.cons_append, scanDigits, hd.1, if_true,
      List.foldl_cons]
    exact ih ((a * 10 + (x - 48)) % 2 ^ 32) hd.2

/-- Unconsumed rest of a digit-run scan. -/
theorem scanDigits_append_snd (d : List ℕ) (r : List ℕ) (a : ℕ)
    (hd : d.all isdigit = true)
    (hr : ∀ c, r.head? = some c → isdigit c = false) :
    (scanDigits (d ++ r) a).2 = r := by
  rw [scanDigits_append d r a hd hr]

/-- Accumulated value of a digit-run scan. -/
theorem scanDigits_append_fst (d : List ℕ) (r : List ℕ) (a : ℕ)
    (hd : d.all isdigit = true)
    (hr : ∀ c, r.head? = some c → isdigit c = false) :
    (scanDigits (d ++ r) a).1
      = d.foldl (fun x c => (x * 10 + (c - 48)) % 2 ^ 32) a := by
  rw [scanDigits_append d r a hd hr]

/-- Folding digits into the wrapping accumulator agrees with the exact
fold reduced mod 2^32. -/
theorem foldl_digits_mod (d : List ℕ) :
    ∀ a : ℕ,
      d.foldl (fun x c => (x * 10 + (c - 48)) % 2 ^ 32) (a % 2 ^ 32)
        = (d.foldl (fun x c => x * 10 + (c - 48)) a) % 2 ^ 32 := by
  induction d with
  | nil => intro a; rfl
  | cons c d2 ih =>
    intro a
    simp only [List.foldl_cons]
    have hcong : (a % 2 ^ 32 * 10 + (c - 48)) % 2 ^ 32
        = (a * 10 + (c - 48)) % 2 ^ 32 :=
      ((Nat.mod_modEq a (2 ^ 32)).mul_right 10).add_right (c - 48)
    rw [hcong, ih (a * 10 + (c - 48))]

/-- The masks of the encoder absorb the 2^32 wrap of the textual
accumulators. -/
theorem OBIS_mod (x y z : ℕ) :
    OBIS (x % 2 ^ 32) (y % 2 ^ 32) (z % 2 ^ 32) = OBIS x y z := by
  have habs : ∀ (w : ℕ) (k : ℕ), k = 12 ∨ k = 8 →
      (w % 2 ^ 32) &&& (2 ^ k - 1) = w &&& (2 ^ k - 1) := by
    intro w k hk
    rw [Nat.and_pow_two_sub_one_eq_mod, Nat.and_pow_two_sub_one_eq_mod,
      Nat.mod_mod_of_dvd]
    rcases hk with h | h <;> subst h
    · exact ⟨2 ^ 20, by norm_num⟩
    · exact ⟨2 ^ 24, by norm_num⟩
  have h12 : (0xfff : ℕ) = 2 ^ 12 - 1 := by norm_num
  have h8 : (0xff : ℕ) = 2 ^ 8 - 1 := by norm_num
  unfold OBIS
  rw [h12, h8, habs x 12 (Or.inl rfl), habs y 8 (Or.inr rfl),
    habs z 8 (Or.inr rfl)]

/-- Every text splits into the digit run a scan consumes and the rest
the scan returns. -/
theorem scanDigits_decomp :
    ∀ (s : List ℕ) (a : ℕ),
      ∃ d, d.all isdigit = true ∧ s = d ++ (scanDigits s a).2 := by
  intro s
  induction s with
  | nil => intro a; exact ⟨[], rfl, rfl⟩
  | cons c r ih =>
    intro a
    by_cases hc : isdigit c = true
    · obtain ⟨d, hd, hr⟩ := ih ((a * 10 + (c - 48)) % 2 ^ 32)
      refine ⟨c :: d, ?_, ?_⟩
      · simp [List.all_cons, hc, hd]
      · simp only [scanDigits, hc, if_true, List.cons_append]
        exact congrArg (c :: ·) hr
    · refine ⟨[], rfl, ?_⟩
      simp [scanDigits, hc]

/-- C7 (amended): for every text in either notation whose components are
(possibly empty) digit runs, parsing yields the key obtained by directly
encoding the (C, D, E) values — the `A-B:` group is parsed but not
retained and the abbreviated form's leading number is the C part — and
every text the parser accepts has one of these two shapes, so any text
outside them (wrong or missing separator, trailing characters, a
non-digit character in place of a separator) yields the invalid
sentinel. -/
theorem C7_obis_codec :
    (∀ a b c d e : List ℕ,
      a.all isdigit = true → b.all isdigit = true →
      c.all isdigit = true → d.all isdigit = true →
      e.all isdigit = true →
      OBIScode (a ++ 45 :: (b ++ 58 :: (c ++ 46 :: (d ++ 46 :: e))))
        = OBIS (digitsVal c) (digitsVal d) (digitsVal e))
  ∧ (∀ c d e : List ℕ,
      c.all isdigit = true → d.all isdigit = true →
      e.all isdigit = true →
      OBIScode (c ++ 46 :: (d ++ 46 :: e))
        = OBIS (digitsVal c) (digitsVal d) (digitsVal e))
  ∧ (∀ s : List ℕ, OBIScode s ≠ OBIS_ERROR → ObisShape s) := by
  have hnd45 : ∀ (t : List ℕ) (c : ℕ), (45 :: t).head? = some c →
      isdigit c = false := by
    intro t c h; injection h with h; subst h; rfl
  have hnd58 : ∀ (t : List ℕ) (c : ℕ), (58 :: t).head? = some c →
      isdigit c = false := by
    intro t c h; injection h with h; subst h; rfl
  have hnd46 : ∀ (t : List ℕ) (c : ℕ), (46 :: t).head? = some c →
      isdigit c = false := by
    intro t c h; injection h with h; subst h; rfl
  have hndnil : ∀ c : ℕ, ([] : List ℕ).head? = some c →
      isdigit c = false := by
    intro c h; cases h
  have hval : ∀ d : List ℕ,
      d.foldl (fun x c => (x * 10 + (c - 48)) % 2 ^ 32) 0
        = digitsVal d % 2 ^ 32 := by
    intro d
    have h0 : (0 : ℕ) = 0 % 2 ^ 32 := rfl
    rw [h0, foldl_digits_mod d 0]
    rfl
  refine ⟨?_, ?_, ?_⟩
  · intro a b c d e ha hb hc hd he
    have hesnd : (scanDigits e 0).2 = [] := by
      simpa using scanDigits_append_snd e [] 0 he hndnil
    have hefst : (scanDigits e 0).1
        = e.foldl (fun x c => (x * 10 + (c - 48)) % 2 ^ 32) 0 := by
      simpa using scanDigits_append_fst e [] 0 he hndnil
    simp only [OBIScode,
      scanDigits_append_snd a _ 0 ha (hnd45 _),
      scanDigits_append_snd b _ 0 hb (hnd58 _),
      scanDigits_append_snd c _ 0 hc (hnd46 _),
      scanDigits_append_snd d _ 0 hd (hnd46 _),
      hesnd,
      scanDigits_append_fst c _ 0 hc (hnd46 _),
      scanDigits_append_fst d _ 0 hd (hnd46 _),
      hefst,
      reduceIte]
    norm_num
    have h32 : (4294967296 : ℕ) = 2 ^ 32 := by norm_num
    rw [h32, hval c, hval d, hval e, OBIS_mod]
  · intro c d e hc hd he
    have hesnd : (scanDigits e 0).2 = [] := by
      simpa using scanDigits_append_snd e [] 0 he hndnil
    have hefst : (scanDigits e 0).1
        = e.foldl (fun x c => (x * 10 + (c - 48)) % 2 ^ 32) 0 := by
      simpa using scanDigits_append_fst e [] 0 he hndnil
    simp only [OBIScode,
      scanDigits_append_snd c _ 0 hc (hnd46 _),
      scanDigits_append_snd d _ 0 hd (hnd46 _),
      hesnd,
      scanDigits_append_fst c _ 0 hc (hnd46 _),
      scanDigits_append_fst d _ 0 hd (hnd46 _),
      hefst,
      reduceIte]
    norm_num
    have h32 : (4294967296 : ℕ) = 2 ^ 32 := by norm_num
    rw [h32, hval c, hval d, hval e, OBIS_mod]
  · intro s h
    unfold OBIScode at h
    obtain ⟨d0, hd0, hs0⟩ := scanDigits_decomp s 0
    split at h
    · exact absurd rfl h
    next c r2 heq1 =>
      obtain ⟨d1, hd1, hs1⟩ := scanDigits_decomp r2 0
      split at h
      · next hc =>
        -- full format branch, c = 45
        split at h
        · exact absurd rfl h
        next c2 r4 heq2 =>
          obtain ⟨d2, hd2, hs2⟩ := scanDigits_decomp r4 0
          split at h
          · next hc2 =>
            split at h
            · exact absurd rfl h
            next c3 r6 heq3 =>
              obtain ⟨d3, hd3, hs3⟩ := scanDigits_decomp r6 0
              split at h
              · next hc3 =>
                split at h
                · exact absurd rfl h
                next c4 r8 heq4 =>
                  obtain ⟨d4, hd4, hs4⟩ := scanDigits_decomp r8 0
                  split at h
                  · next hc4 =>
                    split at h
                    · next heq5 =>
                      left
                      refine ⟨d0, d1, d2, d3, d4,
                        hd0, hd1, hd2, hd3, hd4, ?_⟩
                      subst hc; subst hc2; subst hc3; subst hc4
                      rw [heq5, List.append_nil] at hs4
                      rw [heq4, hs4] at hs3
                      rw [heq3, hs3] at hs2
                      rw [heq2, hs2] at hs1
                      rw [heq1, hs1] at hs0
                      exact hs0
                    · exact absurd rfl h
                  · exact absurd rfl h
              · exact absurd rfl h
          · exact absurd rfl h
      · next hc =>
        -- simple format branch, c = 46
        split at h
        · next hc46 =>
          split at h
          · exact absurd rfl h
          next c2 r4 heq2 =>
            obtain ⟨d2, hd2, hs2⟩ := scanDigits_decomp r4 0
            split at h
            · next hc2 =>
              split at h
              · next heq3 =>
                right
                refine ⟨d0, d1, d2, hd0, hd1, hd2, ?_⟩
                subst hc46; subst hc2
                rw [heq3, List.append_nil] at hs2
                rw [heq2, hs2] at hs1
                rw [heq1, hs1] at hs0
                exact hs0
              · exact absurd rfl h
            · exact absurd rfl h
        · exact absurd rfl h

/-- C7 (counterexample): the malformed text `..` (both notations require digit runs, and
here every component is empty) does not return the invalid sentinel: it
parses as the all-zero address. -/
theorem C7_counterexample :
    OBIScode [46, 46] = OBIS 0 0 0 ∧ OBIScode [46, 46] ≠ OBIS_ERROR := by
  exact ⟨by decide, by decide⟩

/-- C7 witness: both notations of address 1.8.0 decode to the directly
encoded key. -/
theorem C7_witness :
    OBIScode [49, 45, 48, 58, 49, 46, 56, 46, 48] = OBIS 1 8 0
  ∧ OBIScode [49, 46, 56, 46, 48] = OBIS 1 8 0 := by
  constructor
  · exact (C7_obis_codec.1 [49] [48] [49] [56] [48]
      rfl rfl rfl rfl rfl).trans (by decide)
  · exact (C7_obis_codec.2.1 [49] [56] [48] rfl rfl rfl).trans (by decide)

/-! ## Claim C5 -/

/-- Any transition other than into Identifying leaves the buffer
untouched. -/
theorem changeState_buffer (m : Machine) (st : MState) (now : ℕ)
    (h : st ≠ MState.identifying) :
    (changeState m st now).1.buffer = m.buffer := by
  cases st
  case identifying => exact absurd rfl h
  case waiting =>
    simp only [changeState]
    split
    · rfl
    · rfl
  all_goals rfl

/-- A transition always lands in the requested state. -/
theorem changeState_state (m : Machine) (st : MState) (now : ℕ) :
    (changeState m st now).1.state = st := by
  cases st
  case waiting =>
    simp only [changeState]
    split
    · rfl
    · rfl
  all_goals rfl

/-- The end-of-frame test selects only CRC verification or error
recovery. -/
theorem frameEnd_cases (fmt : DataFormat) (b pos : ℕ) (cp : ℤ)
    (st : MState) (h : frameEnd fmt b pos cp = some st) :
    st = MState.verifyingCrc ∨ st = MState.errorRecovery := by
  unfold frameEnd at h
  repeat' split at h
  all_goals first
    | exact Option.noConfusion h
    | (cases h; exact Or.inl rfl)
    | (cases h; exact Or.inr rfl)

/-- CRC verification leaves the buffer in place and moves to one of the
processing states or to error recovery. -/
theorem verifyStep_fields (cfg : Config) (m : Machine) (now : ℕ) :
    (verifyStep cfg m now).1.buffer = m.buffer
    ∧ ((verifyStep cfg m now).1.state = MState.processingAscii
       ∨ (verifyStep cfg m now).1.state = MState.processingBinary
       ∨ (verifyStep cfg m now).1.state = MState.errorRecovery) := by
  simp only [verifyStep]
  repeat' split
  all_goals first
    | exact ⟨rfl, Or.inl rfl⟩
    | exact ⟨rfl, Or.inr (Or.inl rfl)⟩
    | exact ⟨rfl, Or.inr (Or.inr rfl)⟩

/-- Binary processing leaves the buffer in place and stays in its state
or ends in Waiting or error recovery. -/
theorem processBinary_fields (cfg : Config) (now : ℕ) (m : Machine) :
    (processBinary cfg now m).1.buffer = m.buffer
    ∧ ((processBinary cfg now m).1.state = m.state
       ∨ (processBinary cfg now m).1.state = MState.waiting
       ∨ (processBinary cfg now m).1.state = MState.errorRecovery) := by
  simp only [processBinary]
  split
  · split
    · exact ⟨rfl, Or.inr (Or.inr rfl)⟩
    · refine ⟨(tlvLoop_fields cfg now _ _).1, ?_⟩
      have hcase := (tlvLoop_fields cfg now (m.crcPosition.toNat + 2)
        { m with startOfData :=
            (scanControlByte m.buffer m.crcPosition
              (m.crcPosition.toNat + 2) 3 + 6 : ℕ) }).2.2.2
      rcases hcase with h | h | h
      · exact Or.inl h
      · exact Or.inr (Or.inl h)
      · exact Or.inr (Or.inr h)
  · refine ⟨(tlvLoop_fields cfg now _ _).1, ?_⟩
    rcases (tlvLoop_fields cfg now (m.crcPosition.toNat + 2) m).2.2.2
        with h | h | h
    · exact Or.inl h
    · exact Or.inr (Or.inl h)
    · exact Or.inr (Or.inr h)

/-- The reading loop never writes past the capacity: starting below
capacity, the cursor stays at most at capacity, remains strictly below
it while the machine keeps reading, and never lands in Identifying. -/
theorem readLoop_buffer_inv (cfg : Config) (now : ℕ) :
    ∀ (input : List ℕ) (m : Machine),
      m.state = MState.reading →
      m.buffer.length < cfg.bufferSize →
      ((readLoop cfg now input m).1.buffer.length ≤ cfg.bufferSize
       ∧ ((readLoop cfg now input m).1.state = MState.reading →
           (readLoop cfg now input m).1.buffer.length < cfg.bufferSize)
       ∧ (readLoop cfg now input m).1.state ≠ MState.identifying) := by
  intro input
  induction input with
  | nil =>
    intro m hst hlt
    simp only [readLoop]
    split
    · refine ⟨?_, ?_, ?_⟩
      · simpa [changeState] using hlt.le
      · rw [changeState_state]
        intro h; cases h
      · rw [changeState_state]
        intro h; cases h
    · exact ⟨hlt.le, fun _ => hlt, by rw [hst]; intro h; cases h⟩
  | cons b rest ih =>
    intro m hst hlt
    simp only [readLoop]
    split
    · -- malformed binary header → error recovery
      refine ⟨?_, ?_, ?_⟩
      · rw [changeState_buffer _ _ _ (by intro h; cases h)]
        simp only [List.length_append, List.length_cons, List.length_nil]
        omega
      · rw [changeState_state]
        intro h; cases h
      · rw [changeState_state]
        intro h; cases h
    · split
      · next st heq =>
        -- frame complete (or bad trailing flag)
        rcases frameEnd_cases _ _ _ _ st heq with hstv | hstv <;>
          subst hstv
        · refine ⟨?_, ?_, ?_⟩
          · rw [changeState_buffer _ _ _ (by intro h; cases h)]
            simp only [List.length_append, List.length_cons,
              List.length_nil]
            omega
          · rw [changeState_state]
            intro h; cases h
          · rw [changeState_state]
            intro h; cases h
        · refine ⟨?_, ?_, ?_⟩
          · rw [changeState_buffer _ _ _ (by intro h; cases h)]
            simp only [List.length_append, List.length_cons,
              List.length_nil]
            omega
          · rw [changeState_state]
            intro h; cases h
          · rw [changeState_state]
            intro h; cases h
      · split
        · -- buffer full → error recovery
          refine ⟨?_, ?_, ?_⟩
          · rw [changeState_buffer _ _ _ (by intro h; cases h)]
            simp only [List.length_append, List.length_cons,
              List.length_nil]
            omega
          · rw [changeState_state]
            intro h; cases h
          · rw [changeState_state]
            intro h; cases h
        · -- keep reading
          next hne =>
          refine ih _ hst ?_
          simp only [List.length_append, List.length_cons,
            List.length_nil] at hne ⊢
          omega

/-- One invocation preserves the buffer invariant (capacity at least
2, so that the identification byte still leaves room for the reading
loop). -/
theorem step_BufInv (cfg : Config) (h2 : 2 ≤ cfg.bufferSize)
    (m : Machine) (now : ℕ) (input : List ℕ) (hinv : BufInv cfg m) :
    BufInv cfg (step cfg m now input).1 := by
  obtain ⟨hlen, hid, hread⟩ := hinv
  cases hstate : m.state
  case identifying =>
    have hlen0 : m.buffer.length = 0 := hid hstate
    cases input with
    | nil =>
      simp only [step, hstate, identifyStep]
      split
      · refine ⟨?_, ?_, ?_⟩
        · rw [changeState_buffer _ _ _ (by intro h; cases h)]
          exact hlen
        · rw [changeState_state]; intro h; cases h
        · rw [changeState_state]; intro h; cases h
      · refine ⟨hlen, fun _ => hlen0, ?_⟩
        intro h
        simp [hstate] at h
    | cons b rest =>
      simp only [step, hstate, identifyStep]
      have hred : ∀ fmt : DataFormat,
          BufInv cfg
            (readLoop cfg now rest
              (changeState
                { m with
                    dataFormat := fmt
                    buffer := m.buffer ++ [b % 256] }
                MState.reading now).1).1 := by
        intro fmt
        have hb :
            (changeState
              { m with
                  dataFormat := fmt
                  buffer := m.buffer ++ [b % 256] }
              MState.reading now).1.buffer.length < cfg.bufferSize := by
          rw [changeState_buffer _ _ _ (by intro h; cases h)]
          simp only [List.length_append, List.length_cons,
            List.length_nil]
          omega
        have hs :=
          changeState_state
            { m with
                dataFormat := fmt
                buffer := m.buffer ++ [b % 256] }
            MState.reading now
        obtain ⟨p1, p2, p3⟩ := readLoop_buffer_inv cfg now rest _ hs hb
        exact ⟨p1, fun h => absurd h (by
          intro hh
          exact absurd hh p3), p2⟩
      split
      · exact hred DataFormat.ascii
      · split
        · exact hred DataFormat.binary
        · refine ⟨?_, ?_, ?_⟩
          · rw [changeState_buffer _ _ _ (by intro h; cases h)]
            exact hlen
          · rw [changeState_state]; intro h; cases h
          · rw [changeState_state]; intro h; cases h
  case reading =>
    simp only [step, hstate]
    obtain ⟨p1, p2, p3⟩ :=
      readLoop_buffer_inv cfg now input m hstate (hread hstate)
    exact ⟨p1, fun h => absurd h (fun hh => absurd hh p3), p2⟩
  case verifyingCrc =>
    simp only [step, hstate]
    obtain ⟨hb, hs⟩ := verifyStep_fields cfg m now
    refine ⟨by rw [hb]; exact hlen, ?_, ?_⟩
    · intro h
      rcases hs with h2s | h2s | h2s <;> rw [h] at h2s <;> cases h2s
    · intro h
      rcases hs with h2s | h2s | h2s <;> rw [h] at h2s <;> cases h2s
  case processingAscii =>
    simp only [step, hstate]
    obtain ⟨hb, _, _, hs⟩ :=
      processAscii_fields cfg now (m.buffer.length + 2) m
    refine ⟨by rw [hb]; exact hlen, ?_, ?_⟩
    · intro h
      rcases hs with h2s | h2s <;> rw [h] at h2s
      · rw [hstate] at h2s; cases h2s
      · cases h2s
    · intro h
      rcases hs with h2s | h2s <;> rw [h] at h2s
      · rw [hstate] at h2s; cases h2s
      · cases h2s
  case processingBinary =>
    simp only [step, hstate]
    obtain ⟨hb, hs⟩ := processBinary_fields cfg now m
    refine ⟨by rw [hb]; exact hlen, ?_, ?_⟩
    · intro h
      rcases hs with h2s | h2s | h2s <;> rw [h] at h2s
      · rw [hstate] at h2s; cases h2s
      · cases h2s
      · cases h2s
    · intro h
      rcases hs with h2s | h2s | h2s <;> rw [h] at h2s
      · rw [hstate] at h2s; cases h2s
      · cases h2s
      · cases h2s
  case waiting =>
    simp only [step, hstate, waitingStep]
    split
    · refine ⟨?_, ?_, ?_⟩
      · simp [changeState]
      · intro _; simp [changeState]
      · rw [changeState_state]; intro h; cases h
    · split
      · refine ⟨?_, ?_, ?_⟩
        · rw [changeState_buffer _ _ _ (by intro h; cases h)]
          exact hlen
        · rw [changeState_state]; intro h; cases h
        · rw [changeState_state]; intro h; cases h
      · refine ⟨hlen, ?_, ?_⟩
        · intro h
          simp [hstate] at h
        · intro h
          simp [hstate] at h
  case errorRecovery =>
    simp only [step, hstate, errorRecoveryStep]
    split
    · refine ⟨hlen, ?_, ?_⟩
      · intro h
        simp [hstate] at h
      · intro h
        simp [hstate] at h
    · split
      · refine ⟨?_, ?_, ?_⟩
        · rw [changeState_buffer _ _ _ (by intro h; cases h)]
          exact hlen
        · rw [changeState_state]; intro h; cases h
        · rw [changeState_state]; intro h; cases h
      · refine ⟨hlen, ?_, ?_⟩
        · intro h
          simp [hstate] at h
        · intro h
          simp [hstate] at h

/-- The invariant holds along every run from the initial machine. -/
theorem run_BufInv (cfg : Config) (h2 : 2 ≤ cfg.bufferSize) :
    ∀ (ticks : List (ℕ × List ℕ)) (w : World), BufInv cfg w.m →
      BufInv cfg (run cfg w ticks).1.m := by
  intro ticks
  induction ticks with
  | nil => intro w h; exact h
  | cons t rest ih =>
    intro w h
    obtain ⟨tm, bs⟩ := t
    exact ih ⟨(step cfg w.m tm (w.pending ++ bs)).1,
      (step cfg w.m tm (w.pending ++ bs)).2.1⟩
      (step_BufInv cfg h2 w.m tm (w.pending ++ bs) h)

set_option maxRecDepth 100000 in
/-- C5: for every sequence of ticks and of input bytes, for a capacity
of at least 2 (the identification byte plus at least one reading slot;
the constructor's fallback buffer also has size 2), the write cursor
never exceeds the configured capacity and while the machine is reading
it stays strictly below capacity, so every write lands inside the
buffer; moreover a telegram that fills the buffer before a terminator
is found transitions to ErrorRecovery with the cursor exactly at
capacity. -/
theorem C5_buffer_bound :
    (∀ cfg : Config, 2 ≤ cfg.bufferSize →
      ∀ ticks : List (ℕ × List ℕ),
        (run cfg ⟨initialMachine, []⟩ ticks).1.m.buffer.length
          ≤ cfg.bufferSize
        ∧ BufInv cfg (run cfg ⟨initialMachine, []⟩ ticks).1.m)
  ∧ ((run cfgSmall ⟨initialMachine, []⟩
        [(5, [47, 65, 65, 65, 65, 65, 65, 65, 65, 65])]).1.m.state
          = MState.errorRecovery
     ∧ (run cfgSmall ⟨initialMachine, []⟩
        [(5, [47, 65, 65, 65, 65, 65, 65, 65, 65, 65])]).1.m.buffer.length
          = cfgSmall.bufferSize) := by
  constructor
  · intro cfg h2 ticks
    have hinv : BufInv cfg initialMachine :=
      ⟨Nat.zero_le _, fun _ => rfl, fun h => nomatch h⟩
    have h := run_BufInv cfg h2 ticks ⟨initialMachine, []⟩ hinv
    exact ⟨h.1, h⟩
  · exact ⟨by decide, by decide⟩

/-- C5 witness: the invariant applied to the concrete good-telegram run
under the 256-byte configuration. -/
theorem C5_witness :
    (run cfgA ⟨initialMachine, []⟩ asciiTicksGood).1.m.buffer.length
      ≤ cfgA.bufferSize :=
  (C5_buffer_bound.1 cfgA (by decide) asciiTicksGood).1

end P1Mini
